import Mathlib

/-!
MatrixCalculation: a dense row-major matrix with a row-band parallel multiply.

Shallow embedding of `src/ThreadVersion/Matrix.h` (the threaded version) and of
the sequential `src/main.cpp`.

Modelling conventions.

* `size_t` is a `w`-bit unsigned integer: values are `Nat`, every arithmetic
  operation of the source that is performed in `size_t` is followed by
  `% 2 ^ w`, and `SIZE_MAX w = 2 ^ w - 1` is `std::numeric_limits<size_t>::max()`.
* The element type `T` is abstract; `T{}` is `0`, and `+`, `-`, `*` are the
  operators of `T`.  No algebraic law is assumed unless a theorem says so.
* Every way in which a call can end without returning is a failure of the
  call: each `throw` site of the source is one constructor of `Failure`, a
  failed `assert` is `Failure.assertion`, and indexing a `std::vector` outside
  its size (undefined behaviour in C++) is `Failure.out_of_buffer`.
* `std::vector<T>` is `List T`.  What `std::vector<T>::max_size()` returns is the
  parameter `max_size` of the constructors and of every operation that builds a
  matrix: `resize` beyond it throws `std::length_error`.  Exhaustion of memory
  (`std::bad_alloc`) and of threads (`std::system_error`) is not modelled.
* The worker threads of `operator*` are run one band after the other in a
  given order; the order is a parameter of `operatorMulIn`.
* Writing to `std::cout` is not modelled.
-/

namespace MatrixCalculation

/-- Every way a call of the library can end without returning a value. -/
inductive Failure where
  /-- Thrown as `std::invalid_argument("Matrix dimensions cannot be zero.")`. -/
  | zero_dimension
  /-- Thrown as `std::length_error("Matrix size exceeds maximum capacity.")`. -/
  | capacity
  /-- Thrown as `std::invalid_argument("Row length cannot be zero.")`. -/
  | zero_row_length
  /-- Thrown as `std::invalid_argument("Rows have differing lengths.")`. -/
  | ragged
  /-- Thrown as `std::invalid_argument`, "Matrices must have the same dimensions for
  addition." -/
  | add_mismatch
  /-- Thrown as `std::invalid_argument`, "Matrices must have the same dimensions for
  subtraction." -/
  | sub_mismatch
  /-- Thrown as `std::invalid_argument`, "The number of columns in the first matrix must
  equal the number of rows in the second matrix for multiplication." -/
  | mul_mismatch
  /-- Thrown as `std::length_error` by `std::vector::resize` when the requested size
  exceeds `max_size()`. -/
  | resize_length
  /-- A failed `assert(row < rows && col < cols ...)`: the program aborts. -/
  | assertion
  /-- A `std::vector` indexed at or beyond its size: undefined behaviour. -/
  | out_of_buffer
  deriving DecidableEq, Repr

/-- The C++ class of what a failure raises. -/
inductive ExceptionClass where
  | invalid_argument
  | length_error
  | out_of_range
  | aborted
  | undefined_behaviour
  deriving DecidableEq, Repr

/-- The exception class thrown at each failure site. -/
def Failure.cls : Failure → ExceptionClass
  | .zero_dimension => .invalid_argument
  | .capacity => .length_error
  | .zero_row_length => .invalid_argument
  | .ragged => .invalid_argument
  | .add_mismatch => .invalid_argument
  | .sub_mismatch => .invalid_argument
  | .mul_mismatch => .invalid_argument
  | .resize_length => .length_error
  | .assertion => .aborted
  | .out_of_buffer => .undefined_behaviour

/-- The value of `std::numeric_limits<size_t>::max()` for a `w`-bit `size_t`. -/
def SIZE_MAX (w : Nat) : Nat := 2 ^ w - 1

/-- The class `Matrix<T>`: the three data members, in declaration order. -/
structure Matrix (T : Type) where
  data : List T
  rows : Nat
  cols : Nat
  deriving DecidableEq, Repr

/-- The loop `for (size_t i = start; ...; ++i) state = body(i, state)` run for `count`
iterations, stopping at the first failure. -/
def loopFrom {σ : Type} (body : Nat → σ → Except Failure σ) :
    Nat → Nat → σ → Except Failure σ
  | 0, _, s => .ok s
  | n + 1, i, s =>
    match body i s with
    | .ok s' => loopFrom body n (i + 1) s'
    | .error e => .error e

/-- The loop `for (size_t i = start; i < stop; ++i) state = body(i, state)`. -/
def forRange {σ : Type} (start stop : Nat) (body : Nat → σ → Except Failure σ)
    (s : σ) : Except Failure σ :=
  loopFrom body (stop - start) start s

/-- Reading `v[i]` on a `std::vector`. -/
def vecGet {T : Type} (v : List T) (i : Nat) : Except Failure T :=
  match v[i]? with
  | some x => .ok x
  | none => .error .out_of_buffer

/-- The assignment `v[i] = x` on a `std::vector`. -/
def vecSet {T : Type} (v : List T) (i : Nat) (x : T) : Except Failure (List T) :=
  if i < v.length then .ok (v.set i x) else .error .out_of_buffer

/-- The call `data.resize(n, x)` on the empty `std::vector` of a matrix under
construction, where `max_size` is what `data.max_size()` returns: beyond it `resize`
throws `std::length_error`, otherwise the vector holds `n` copies of `x`. -/
def vecResize {T : Type} (max_size n : Nat) (x : T) : Except Failure (List T) :=
  if n > max_size then .error .resize_length else .ok (List.replicate n x)

variable {T : Type}

/-- Element read `const T& operator()(size_t row, size_t col) const`
(Matrix.h 62-65, main.cpp 40-44): the assertion, then `data[row * cols + col]`. -/
def Matrix.elem (w : Nat) (m : Matrix T) (row col : Nat) : Except Failure T :=
  if row < m.rows ∧ col < m.cols then
    vecGet m.data ((row * m.cols + col) % 2 ^ w)
  else .error .assertion

/-- Element write: `T& operator()(size_t row, size_t col)` used as the target of an
assignment (Matrix.h 58-61, main.cpp 34-38): `m(row, col) = x`. -/
def Matrix.assign (w : Nat) (m : Matrix T) (row col : Nat) (x : T) :
    Except Failure (Matrix T) :=
  if row < m.rows ∧ col < m.cols then
    match vecSet m.data ((row * m.cols + col) % 2 ^ w) x with
    | .ok d => .ok { m with data := d }
    | .error e => .error e
  else .error .assertion

namespace ThreadVersion

/-- The dimensioned constructor
`Matrix(size_t num_rows, size_t num_cols, const T& default_value)` (Matrix.h 23-32). -/
def create (w max_size : Nat) (num_rows num_cols : Nat) (default_value : T) :
    Except Failure (Matrix T) :=
  if num_rows = 0 ∨ num_cols = 0 then .error .zero_dimension
  else if num_rows > 0 ∧ num_cols > SIZE_MAX w / num_rows then .error .capacity
  else
    match vecResize max_size ((num_rows * num_cols) % 2 ^ w) default_value with
    | .ok d => .ok { data := d, rows := num_rows, cols := num_cols }
    | .error e => .error e

/-- The same constructor called with two arguments, as in `Matrix<T> result(rows, cols)`:
`default_value` takes its default `T{}`. -/
def createDefault [Zero T] (w max_size : Nat) (num_rows num_cols : Nat) :
    Except Failure (Matrix T) :=
  create w max_size num_rows num_cols (0 : T)

/-- The loop of the nested-literal constructor (Matrix.h 47-52): each row is
checked against `cols` and appended to `data`. -/
def appendRows (cols : Nat) : List (List T) → List T → Except Failure (List T)
  | [], data => .ok data
  | row_list :: rest, data =>
    if row_list.length ≠ cols then .error .ragged
    else appendRows cols rest (data ++ row_list)

/-- The nested-literal constructor
`Matrix(std::initializer_list<std::initializer_list<T>> list)` (Matrix.h 35-53).  `data.reserve` has no observable effect. -/
def ofLists (list : List (List T)) : Except Failure (Matrix T) :=
  match list with
  | [] => .ok { data := [], rows := 0, cols := 0 }
  | first :: _ =>
    if first.length = 0 then .error .zero_row_length
    else
      match appendRows first.length list [] with
      | .ok d => .ok { data := d, rows := list.length, cols := first.length }
      | .error e => .error e

/-- Addition: `Matrix<T> operator+(const Matrix<T>& other) const` (Matrix.h 67-76). -/
def add [Zero T] [Add T] (w max_size : Nat) (self other : Matrix T) :
    Except Failure (Matrix T) :=
  if self.rows ≠ other.rows ∨ self.cols ≠ other.cols then .error .add_mismatch
  else
    match createDefault w max_size self.rows self.cols with
    | .error e => .error e
    | .ok result =>
      forRange 0 ((self.rows * self.cols) % 2 ^ w)
        (fun i (result : Matrix T) =>
          match vecGet self.data i, vecGet other.data i with
          | .ok a, .ok b =>
            match vecSet result.data i (a + b) with
            | .ok d => .ok { result with data := d }
            | .error e => .error e
          | .error e, _ => .error e
          | _, .error e => .error e)
        result

/-- Subtraction: `Matrix<T> operator-(const Matrix<T>& other) const` (Matrix.h 78-87). -/
def sub [Zero T] [Sub T] (w max_size : Nat) (self other : Matrix T) :
    Except Failure (Matrix T) :=
  if self.rows ≠ other.rows ∨ self.cols ≠ other.cols then .error .sub_mismatch
  else
    match createDefault w max_size self.rows self.cols with
    | .error e => .error e
    | .ok result =>
      forRange 0 ((self.rows * self.cols) % 2 ^ w)
        (fun i (result : Matrix T) =>
          match vecGet self.data i, vecGet other.data i with
          | .ok a, .ok b =>
            match vecSet result.data i (a - b) with
            | .ok d => .ok { result with data := d }
            | .error e => .error e
          | .error e, _ => .error e
          | _, .error e => .error e)
        result

/-- Scalar multiplication: `Matrix<T> operator*(const T& scalar) const`
(Matrix.h 92-98). -/
def scale [Zero T] [Mul T] (w max_size : Nat) (self : Matrix T) (scalar : T) :
    Except Failure (Matrix T) :=
  match createDefault w max_size self.rows self.cols with
  | .error e => .error e
  | .ok result =>
    forRange 0 ((self.rows * self.cols) % 2 ^ w)
      (fun i (result : Matrix T) =>
        match vecGet self.data i with
        | .ok a =>
          match vecSet result.data i (a * scalar) with
          | .ok d => .ok { result with data := d }
          | .error e => .error e
        | .error e => .error e)
      result

/-- Transposition: `Matrix<T> transpose() const` (Matrix.h 100-108). -/
def transpose [Zero T] (w max_size : Nat) (self : Matrix T) : Except Failure (Matrix T) :=
  match createDefault w max_size self.cols self.rows with
  | .error e => .error e
  | .ok result =>
    forRange 0 self.rows
      (fun i (result : Matrix T) =>
        forRange 0 self.cols
          (fun j (result : Matrix T) =>
            match self.elem w i j with
            | .ok x => result.assign w j i x
            | .error e => .error e)
          result)
      result

/-- The innermost loop shared by every multiply: `T sum{}; for k: sum += a(i,k) * b(k,j)`. -/
def dotLoop [Zero T] [Add T] [Mul T] (w : Nat) (self other : Matrix T) (i j : Nat) :
    Except Failure T :=
  forRange 0 self.cols
    (fun k (sum : T) =>
      match self.elem w i k, other.elem w k j with
      | .ok a, .ok b => .ok (sum + a * b)
      | .error e, _ => .error e
      | _, .error e => .error e)
    (0 : T)

/-- The private helper `void multiply_rows(Matrix<T>& result, const Matrix<T>& other,
size_t start_row, size_t end_row) const` (Matrix.h 114-124); the updated `result` is
returned. -/
def multiply_rows [Zero T] [Add T] [Mul T] (w : Nat) (self result other : Matrix T)
    (start_row end_row : Nat) : Except Failure (Matrix T) :=
  forRange start_row end_row
    (fun i (result : Matrix T) =>
      forRange 0 other.cols
        (fun j (result : Matrix T) =>
          match dotLoop w self other i j with
          | .ok sum => result.assign w i j sum
          | .error e => .error e)
        result)
    result

/-- The body of the lambda handed to each `std::thread` (Matrix.h 166-176), with the
captured `start_row`, `end_row`; the updated `result` is returned. -/
def threadBody [Zero T] [Add T] [Mul T] (w : Nat) (self result other : Matrix T)
    (start_row end_row : Nat) : Except Failure (Matrix T) :=
  forRange start_row end_row
    (fun i (result : Matrix T) =>
      forRange 0 other.cols
        (fun j (result : Matrix T) =>
          match dotLoop w self other i j with
          | .ok sum => result.assign w i j sum
          | .error e => .error e)
        result)
    result

/-- The partition loop of `operator*` (Matrix.h 160-178): the `(start_row, end_row)`
captured by the threads, in creation order.  `count` iterations remain, `i` is the
loop counter. -/
def spawnLoop (w rows num_threads rows_per_thread : Nat) :
    Nat → Nat → Nat → List (Nat × Nat)
  | 0, _, _ => []
  | count + 1, i, start_row =>
    let end_row :=
      if i = num_threads - 1 then rows else (start_row + rows_per_thread) % 2 ^ w
    (start_row, end_row) :: spawnLoop w rows num_threads rows_per_thread count (i + 1) end_row

/-- The bands of `operator*` for `rows` rows and `num_threads` workers
(Matrix.h 157-178). -/
def bands (w rows num_threads : Nat) : List (Nat × Nat) :=
  spawnLoop w rows num_threads (rows / num_threads) num_threads 0 0

/-- The threads run to completion one band after the other, in the order of the list. -/
def runThreads [Zero T] [Add T] [Mul T] (w : Nat) (self other : Matrix T) :
    List (Nat × Nat) → Matrix T → Except Failure (Matrix T)
  | [], result => .ok result
  | (start_row, end_row) :: rest, result =>
    match threadBody w self result other start_row end_row with
    | .ok r => runThreads w self other rest r
    | .error e => .error e

/-- Matrix multiplication:
`Matrix<T> Matrix<T>::operator*(const Matrix<T>& other) const` (Matrix.h 140-185),
where `num_threads` is what `std::thread::hardware_concurrency()` returned and
`order` lists the bands in the order in which the threads get to run. -/
def operatorMulIn [Zero T] [Add T] [Mul T] (w max_size num_threads : Nat)
    (order : List (Nat × Nat))
    (self other : Matrix T) : Except Failure (Matrix T) :=
  if self.cols ≠ other.rows then .error .mul_mismatch
  else
    match createDefault w max_size self.rows other.cols with
    | .error e => .error e
    | .ok result =>
      if num_threads = 0 then multiply_rows w self result other 0 self.rows
      else runThreads w self other order result

/-- Matrix multiplication with the threads run in creation order. -/
def operatorMul [Zero T] [Add T] [Mul T] (w max_size num_threads : Nat)
    (self other : Matrix T) : Except Failure (Matrix T) :=
  operatorMulIn w max_size num_threads (bands w self.rows num_threads) self other

end ThreadVersion

namespace Sequential

/-- The dimensioned constructor of main.cpp (5-11),
`Matrix<T>::Matrix(size_t num_rows, size_t num_cols, const T& default_value)`: no
capacity check, and the buffer is filled with `T{}` whatever `default_value` is. -/
def create [Zero T] (w max_size : Nat) (num_rows num_cols : Nat) (_default_value : T) :
    Except Failure (Matrix T) :=
  if num_rows = 0 ∨ num_cols = 0 then .error .zero_dimension
  else
    match vecResize max_size ((num_rows * num_cols) % 2 ^ w) (0 : T) with
    | .ok d => .ok { data := d, rows := num_rows, cols := num_cols }
    | .error e => .error e

/-- The same constructor called with two arguments, as in
`Matrix<T> result(rows, other.cols)`. -/
def createDefault [Zero T] (w max_size : Nat) (num_rows num_cols : Nat) :
    Except Failure (Matrix T) :=
  create w max_size num_rows num_cols (0 : T)

/-- Matrix multiplication of main.cpp (70-86),
`Matrix<T> Matrix<T>::operator*(const Matrix<T>& other) const`: the sequential triple
loop. -/
def operatorMul [Zero T] [Add T] [Mul T] (w max_size : Nat) (self other : Matrix T) :
    Except Failure (Matrix T) :=
  if self.cols ≠ other.rows then .error .mul_mismatch
  else
    match createDefault w max_size self.rows other.cols with
    | .error e => .error e
    | .ok result =>
      forRange 0 self.rows
        (fun i (result : Matrix T) =>
          forRange 0 other.cols
            (fun j (result : Matrix T) =>
              match forRange 0 self.cols
                  (fun k (sum : T) =>
                    match self.elem w i k, other.elem w k j with
                    | .ok a, .ok b => .ok (sum + a * b)
                    | .error e, _ => .error e
                    | _, .error e => .error e)
                  (0 : T) with
              | .ok sum => result.assign w i j sum
              | .error e => .error e)
            result)
        result

end Sequential

/-! ## Specification vocabulary -/

/-- The matrix `m` has `R` rows and `C` columns and `operator()` reads `a i j` at every cell
`(i, j)` of it. -/
def Matrix.Reads (w : Nat) (m : Matrix T) (R C : Nat) (a : Nat → Nat → T) : Prop :=
  m.rows = R ∧ m.cols = C ∧ ∀ i j, i < R → j < C → m.elem w i j = .ok (a i j)

/-- The matrix `m` has `R` rows, `C` columns and a buffer of exactly `R * C` elements, a number
that fits the size type. -/
def Matrix.Shaped (w : Nat) (m : Matrix T) (R C : Nat) : Prop :=
  m.rows = R ∧ m.cols = C ∧ m.data.length = R * C ∧ R * C ≤ SIZE_MAX w

/-- The sum over `k = 0 .. K-1` of `a i k * b k j`, accumulated from `0` in
ascending `k`. -/
def dotSum [Zero T] [Add T] [Mul T] (a b : Nat → Nat → T) (K i j : Nat) : T :=
  (List.range K).foldl (fun s k => s + a i k * b k j) 0

/-! ## Concrete matrices of the test-suite -/

/-- What `std::vector<int>::max_size()` returns with libstdc++ on a platform with a
64-bit `size_t`: `PTRDIFF_MAX / sizeof(int)`. -/
def maxSizeInt : Nat := 2 ^ 61 - 1

/-- The matrix `Matrix<int> m1 = {{1, 2}, {3, 4}}` of `matrix_tests.cpp`. -/
def testA : Matrix Int := ⟨[1, 2, 3, 4], 2, 2⟩

/-- The matrix `Matrix<int> m2 = {{5, 6}, {7, 8}}` of `matrix_tests.cpp`. -/
def testB : Matrix Int := ⟨[5, 6, 7, 8], 2, 2⟩

/-- The cells of `testA` as a function of row and column. -/
def cellsA (i j : Nat) : Int := 2 * (i : Int) + (j : Int) + 1

/-- The cells of `testB` as a function of row and column. -/
def cellsB (i j : Nat) : Int := 2 * (i : Int) + (j : Int) + 5

/-- What the nested-literal constructor returns for the empty literal `{}`. -/
def emptyLiteral : Matrix Int := ⟨[], 0, 0⟩

/-- A column of `2 ^ 32` elements, all zero: `Matrix<T>(4294967296, 1)`. -/
def tallColumn : Matrix Int := ⟨List.replicate (2 ^ 32 * 1) 0, 2 ^ 32, 1⟩

/-- A row of `2 ^ 32` elements, all zero: `Matrix<T>(1, 4294967296)`. -/
def wideRow : Matrix Int := ⟨List.replicate (1 * 2 ^ 32) 0, 1, 2 ^ 32⟩

/-- The cells of `tallColumn` and of `wideRow`. -/
def zeroCells (_i _j : Nat) : Int := 0

/-! ## Element access in a release build -/

/-- Element read `operator()(row, col)` in a build with `NDEBUG` defined, the build
in which `test_out_of_bounds` expects an exception: the `assert` is compiled out and
only `data[row * cols + col]` remains (Matrix.h 58-65). -/
def Matrix.elemRelease (w : Nat) (m : Matrix T) (row col : Nat) : Except Failure T :=
  vecGet m.data ((row * m.cols + col) % 2 ^ w)

/-- The matrix `Matrix<int> m(2, 2)` of `test_out_of_bounds`. -/
def zeroSquare : Matrix Int := ⟨[0, 0, 0, 0], 2, 2⟩

/-! ## Arithmetic of the size type and of the row-major index -/

theorem le_SIZE_MAX_iff (w n : Nat) : n ≤ SIZE_MAX w ↔ n < 2 ^ w := by
  have h : 0 < 2 ^ w := Nat.two_pow_pos w
  unfold SIZE_MAX
  omega

theorem wrap_eq {w n : Nat} (h : n ≤ SIZE_MAX w) : n % 2 ^ w = n :=
  Nat.mod_eq_of_lt ((le_SIZE_MAX_iff w n).1 h)

theorem guard_iff (w num_rows num_cols : Nat) (h : 0 < num_rows) :
    num_cols > SIZE_MAX w / num_rows ↔ num_rows * num_cols > SIZE_MAX w := by
  show SIZE_MAX w / num_rows < num_cols ↔ SIZE_MAX w < num_rows * num_cols
  rw [Nat.div_lt_iff_lt_mul h, Nat.mul_comm]

theorem index_lt {R C i j : Nat} (hi : i < R) (hj : j < C) : i * C + j < R * C := by
  have h1 : (i + 1) * C ≤ R * C := Nat.mul_le_mul_right C hi
  have h2 : (i + 1) * C = i * C + C := by ring
  omega

theorem index_div {C i j : Nat} (hj : j < C) : (i * C + j) / C = i := by
  have hC : 0 < C := by omega
  rw [Nat.add_comm, Nat.add_mul_div_right _ _ hC, Nat.div_eq_of_lt hj, Nat.zero_add]

theorem index_mod {C i j : Nat} (hj : j < C) : (i * C + j) % C = j := by
  rw [Nat.add_comm, Nat.add_mul_mod_self_right, Nat.mod_eq_of_lt hj]

theorem index_inj {C i j i' j' : Nat} (hj : j < C) (hj' : j' < C)
    (h : i * C + j = i' * C + j') : i = i' ∧ j = j' := by
  have h1 := index_div (i := i) hj
  have h2 := index_mod (i := i) hj
  rw [h, index_div hj'] at h1
  rw [h, index_mod hj'] at h2
  exact ⟨h1.symm, h2.symm⟩

theorem split_index {R C idx : Nat} (h : idx < R * C) :
    idx / C < R ∧ idx % C < C ∧ idx / C * C + idx % C = idx := by
  have hC : 0 < C := by
    rcases Nat.eq_zero_or_pos C with h0 | h0
    · subst h0; simp at h
    · exact h0
  exact ⟨(Nat.div_lt_iff_lt_mul hC).2 h, Nat.mod_lt _ hC, Nat.div_add_mod' idx C⟩

/-! ## Loops -/

theorem loopFrom_inv {σ : Type} (body : Nat → σ → Except Failure σ) (P : Nat → σ → Prop) :
    ∀ (n i : Nat) (s : σ), P i s →
      (∀ k t, i ≤ k → k < i + n → P k t → ∃ t', body k t = .ok t' ∧ P (k + 1) t') →
      ∃ t, loopFrom body n i s = .ok t ∧ P (i + n) t := by
  intro n
  induction n with
  | zero => intro i s h0 _; exact ⟨s, rfl, h0⟩
  | succ n ih =>
    intro i s h0 hstep
    obtain ⟨s1, hb, h1⟩ := hstep i s (Nat.le_refl i) (by omega) h0
    obtain ⟨t, ht, hP⟩ := ih (i + 1) s1 h1
      (fun k t hk hk' hP => hstep k t (by omega) (by omega) hP)
    refine ⟨t, ?_, ?_⟩
    · simp only [loopFrom, hb, ht]
    · have : i + (n + 1) = i + 1 + n := by omega
      rw [this]; exact hP

theorem forRange_inv {σ : Type} (body : Nat → σ → Except Failure σ) (P : Nat → σ → Prop)
    (start stop : Nat) (s : σ) (hle : start ≤ stop) (h0 : P start s)
    (hstep : ∀ k t, start ≤ k → k < stop → P k t → ∃ t', body k t = .ok t' ∧ P (k + 1) t') :
    ∃ t, forRange start stop body s = .ok t ∧ P stop t := by
  obtain ⟨t, ht, hP⟩ := loopFrom_inv body P (stop - start) start s h0
    (fun k t hk hk' hP => hstep k t hk (by omega) hP)
  refine ⟨t, ht, ?_⟩
  have : start + (stop - start) = stop := by omega
  rw [this] at hP; exact hP

theorem forRange_empty {σ : Type} (body : Nat → σ → Except Failure σ)
    (start stop : Nat) (s : σ) (hle : stop ≤ start) : forRange start stop body s = .ok s := by
  have : stop - start = 0 := by omega
  simp only [forRange, this, loopFrom]

/-! ## Vectors and cells -/

theorem vecGet_eq_ok {v : List T} {i : Nat} {x : T} :
    vecGet v i = .ok x ↔ v[i]? = some x := by
  unfold vecGet
  cases h : v[i]? <;> simp

theorem vecSet_ok {v : List T} {i : Nat} (x : T) (h : i < v.length) :
    vecSet v i x = .ok (v.set i x) := by
  simp [vecSet, h]

theorem Matrix.Shaped.elem_eq {w : Nat} {m : Matrix T} {R C i j : Nat}
    (hm : m.Shaped w R C) (hi : i < R) (hj : j < C) :
    m.elem w i j = vecGet m.data (i * C + j) := by
  obtain ⟨hr, hc, _, hcap⟩ := hm
  have hlt := index_lt hi hj
  have hw : (i * C + j) % 2 ^ w = i * C + j := wrap_eq (by omega)
  simp [Matrix.elem, hr, hc, hi, hj, hw]

theorem Matrix.Shaped.assign_eq {w : Nat} {m : Matrix T} {R C i j : Nat} (x : T)
    (hm : m.Shaped w R C) (hi : i < R) (hj : j < C) :
    m.assign w i j x = .ok { m with data := m.data.set (i * C + j) x } := by
  obtain ⟨hr, hc, hl, hcap⟩ := hm
  have hlt := index_lt hi hj
  have hw : (i * C + j) % 2 ^ w = i * C + j := wrap_eq (by omega)
  have hlen : i * C + j < m.data.length := by omega
  simp [Matrix.assign, hr, hc, hi, hj, hw, vecSet_ok x hlen]

theorem Matrix.Shaped.assign_spec {w : Nat} {m : Matrix T} {R C i j : Nat} (x : T)
    (hm : m.Shaped w R C) (hi : i < R) (hj : j < C) :
    ∃ m', m.assign w i j x = .ok m' ∧ m'.Shaped w R C ∧
      ∀ i' j', i' < R → j' < C →
        m'.elem w i' j' = if i' = i ∧ j' = j then .ok x else m.elem w i' j' := by
  refine ⟨_, hm.assign_eq x hi hj, ?_, ?_⟩
  · obtain ⟨hr, hc, hl, hcap⟩ := hm
    exact ⟨hr, hc, by simp [hl], hcap⟩
  · intro i' j' hi' hj'
    have hm' : ({ m with data := m.data.set (i * C + j) x } : Matrix T).Shaped w R C := by
      obtain ⟨hr, hc, hl, hcap⟩ := hm
      exact ⟨hr, hc, by simp [hl], hcap⟩
    rw [hm'.elem_eq hi' hj', hm.elem_eq hi' hj']
    have hlen : i * C + j < m.data.length := by
      have := index_lt hi hj
      have := hm.2.2.1
      omega
    by_cases h : i' = i ∧ j' = j
    · obtain ⟨rfl, rfl⟩ := h
      simp [vecGet, hlen]
    · have hne : i * C + j ≠ i' * C + j' := by
        intro heq
        obtain ⟨h1, h2⟩ := index_inj hj hj' heq
        exact h ⟨h1.symm, h2.symm⟩
      simp only [h, if_false, vecGet]
      rw [List.getElem?_set_ne hne]

theorem Matrix.Shaped.ext {w : Nat} {m m' : Matrix T} {R C : Nat}
    (hm : m.Shaped w R C) (hm' : m'.Shaped w R C)
    (h : ∀ i j, i < R → j < C → m.elem w i j = m'.elem w i j) : m = m' := by
  have hdata : m.data = m'.data := by
    apply List.ext_getElem?
    intro idx
    by_cases hidx : idx < R * C
    · obtain ⟨h1, h2, h3⟩ := split_index hidx
      have := h _ _ h1 h2
      rw [hm.elem_eq h1 h2, hm'.elem_eq h1 h2, h3] at this
      have l1 : idx < m.data.length := by rw [hm.2.2.1]; exact hidx
      have l2 : idx < m'.data.length := by rw [hm'.2.2.1]; exact hidx
      simp only [vecGet, List.getElem?_eq_getElem l1, List.getElem?_eq_getElem l2] at this
      rw [List.getElem?_eq_getElem l1, List.getElem?_eq_getElem l2]
      injection this with this
      rw [this]
    · have l1 : m.data.length ≤ idx := by rw [hm.2.2.1]; omega
      have l2 : m'.data.length ≤ idx := by rw [hm'.2.2.1]; omega
      rw [List.getElem?_eq_none l1, List.getElem?_eq_none l2]
  obtain ⟨d, r, c⟩ := m
  obtain ⟨d', r', c'⟩ := m'
  have hr : r = r' := hm.1.trans hm'.1.symm
  have hc : c = c' := hm.2.1.trans hm'.2.1.symm
  simp only at hdata
  subst hdata hr hc
  rfl

/-! ## The dimensioned constructor -/

theorem ThreadVersion.create_zero (w max_size R C : Nat) (v : T) (h : R = 0 ∨ C = 0) :
    ThreadVersion.create w max_size R C v = .error .zero_dimension := by
  simp [ThreadVersion.create, h]

theorem ThreadVersion.create_capacity (w max_size R C : Nat) (v : T) (hR : 1 ≤ R) (hC : 1 ≤ C)
    (h : SIZE_MAX w < R * C) : ThreadVersion.create w max_size R C v = .error .capacity := by
  have h0 : ¬ (R = 0 ∨ C = 0) := by omega
  have h1 : R > 0 ∧ C > SIZE_MAX w / R := ⟨hR, (guard_iff w R C hR).2 h⟩
  simp only [ThreadVersion.create, h0, h1, if_false, if_true, and_self]

theorem ThreadVersion.create_ok (w max_size R C : Nat) (v : T) (hR : 1 ≤ R) (hC : 1 ≤ C)
    (h : R * C ≤ SIZE_MAX w) (hmax : R * C ≤ max_size) :
    ThreadVersion.create w max_size R C v = .ok ⟨List.replicate (R * C) v, R, C⟩ := by
  have h0 : ¬ (R = 0 ∨ C = 0) := by omega
  have h1 : ¬ (R > 0 ∧ C > SIZE_MAX w / R) := by
    rintro ⟨_, h2⟩
    have := (guard_iff w R C hR).1 h2
    omega
  have h2 : ¬ (R * C > max_size) := by omega
  simp only [ThreadVersion.create, h0, h1, if_false, wrap_eq h, vecResize, h2]

theorem ThreadVersion.create_resize (w max_size R C : Nat) (v : T) (hR : 1 ≤ R) (hC : 1 ≤ C)
    (h : R * C ≤ SIZE_MAX w) (hmax : max_size < R * C) :
    ThreadVersion.create w max_size R C v = .error .resize_length := by
  have h0 : ¬ (R = 0 ∨ C = 0) := by omega
  have h1 : ¬ (R > 0 ∧ C > SIZE_MAX w / R) := by
    rintro ⟨_, h2⟩
    have := (guard_iff w R C hR).1 h2
    omega
  have h2 : R * C > max_size := hmax
  simp only [ThreadVersion.create, h0, h1, if_false, wrap_eq h, vecResize, h2, if_true]

theorem replicate_Shaped (w R C : Nat) (v : T) (h : R * C ≤ SIZE_MAX w) :
    (⟨List.replicate (R * C) v, R, C⟩ : Matrix T).Shaped w R C :=
  ⟨rfl, rfl, by simp, h⟩

theorem replicate_elem (w R C : Nat) (v : T) (h : R * C ≤ SIZE_MAX w) (i j : Nat)
    (hi : i < R) (hj : j < C) :
    (⟨List.replicate (R * C) v, R, C⟩ : Matrix T).elem w i j = .ok v := by
  rw [(replicate_Shaped w R C v h).elem_eq hi hj]
  simp [vecGet, index_lt hi hj]

/-- Every outcome of the dimensioned constructor, by cases on its arguments. -/
theorem ThreadVersion.create_cases (w max_size R C : Nat) (v : T) :
    (R = 0 ∨ C = 0) ∧ ThreadVersion.create w max_size R C v = .error .zero_dimension ∨
    (1 ≤ R ∧ 1 ≤ C ∧ SIZE_MAX w < R * C) ∧
      ThreadVersion.create w max_size R C v = .error .capacity ∨
    (1 ≤ R ∧ 1 ≤ C ∧ R * C ≤ SIZE_MAX w ∧ max_size < R * C) ∧
      ThreadVersion.create w max_size R C v = .error .resize_length ∨
    (1 ≤ R ∧ 1 ≤ C ∧ R * C ≤ SIZE_MAX w ∧ R * C ≤ max_size) ∧
      ThreadVersion.create w max_size R C v = .ok ⟨List.replicate (R * C) v, R, C⟩ := by
  by_cases h0 : R = 0 ∨ C = 0
  · exact Or.inl ⟨h0, ThreadVersion.create_zero w max_size R C v h0⟩
  · have hR : 1 ≤ R := by omega
    have hC : 1 ≤ C := by omega
    by_cases h1 : SIZE_MAX w < R * C
    · exact Or.inr (Or.inl ⟨⟨hR, hC, h1⟩,
        ThreadVersion.create_capacity w max_size R C v hR hC h1⟩)
    · have h2 : R * C ≤ SIZE_MAX w := by omega
      by_cases h3 : max_size < R * C
      · exact Or.inr (Or.inr (Or.inl ⟨⟨hR, hC, h2, h3⟩,
          ThreadVersion.create_resize w max_size R C v hR hC h2 h3⟩))
      · have h4 : R * C ≤ max_size := by omega
        exact Or.inr (Or.inr (Or.inr ⟨⟨hR, hC, h2, h4⟩,
          ThreadVersion.create_ok w max_size R C v hR hC h2 h4⟩))

/-- C7: the dimensioned constructor raises `std::invalid_argument` (the zero-dimension
failure) exactly when `rows = 0` or `cols = 0`; the capacity failure is raised only
when both dimensions are non-zero, so the zero check comes first. -/
theorem ThreadVersion.create_invalid_argument_iff (w max_size rows cols : Nat) (fill : T) :
    (ThreadVersion.create w max_size rows cols fill = .error .zero_dimension ↔
        (rows = 0 ∨ cols = 0)) ∧
    ((∃ e, ThreadVersion.create w max_size rows cols fill = .error e ∧
        e.cls = ExceptionClass.invalid_argument) ↔ (rows = 0 ∨ cols = 0)) ∧
    (ThreadVersion.create w max_size rows cols fill = .error .capacity ↔
        (rows ≠ 0 ∧ cols ≠ 0 ∧ cols > SIZE_MAX w / rows)) := by
  rcases ThreadVersion.create_cases w max_size rows cols fill with
    ⟨h0, h⟩ | ⟨⟨hR, hC, hcap⟩, h⟩ | ⟨⟨hR, hC, hcap, _⟩, h⟩ | ⟨⟨hR, hC, hcap, _⟩, h⟩
  · rw [h]
    refine ⟨by simp [h0], ⟨fun _ => h0, fun _ => ⟨_, rfl, rfl⟩⟩, ?_⟩
    constructor
    · intro hc; cases hc
    · rintro ⟨h1, h2, _⟩; rcases h0 with h0 | h0 <;> contradiction
  · rw [h]
    have hn : ¬ (rows = 0 ∨ cols = 0) := by omega
    refine ⟨?_, ?_, ?_⟩
    · constructor
      · intro hc; cases hc
      · intro hc; exact absurd hc hn
    · constructor
      · rintro ⟨e, he, hcls⟩
        cases he
        cases hcls
      · intro hc; exact absurd hc hn
    · constructor
      · intro _
        exact ⟨by omega, by omega, (guard_iff w rows cols hR).2 hcap⟩
      · intro _; rfl
  · rw [h]
    have hn : ¬ (rows = 0 ∨ cols = 0) := by omega
    refine ⟨?_, ?_, ?_⟩
    · constructor
      · intro hc; cases hc
      · intro hc; exact absurd hc hn
    · constructor
      · rintro ⟨e, he, hcls⟩
        cases he
        cases hcls
      · intro hc; exact absurd hc hn
    · constructor
      · intro hc; cases hc
      · rintro ⟨_, _, h3⟩
        have := (guard_iff w rows cols hR).1 h3
        omega
  · rw [h]
    have hn : ¬ (rows = 0 ∨ cols = 0) := by omega
    refine ⟨?_, ?_, ?_⟩
    · constructor
      · intro hc; cases hc
      · intro hc; exact absurd hc hn
    · constructor
      · rintro ⟨e, he, _⟩
        cases he
      · intro hc; exact absurd hc hn
    · constructor
      · intro hc; cases hc
      · rintro ⟨_, _, h3⟩
        have := (guard_iff w rows cols hR).1 h3
        omega

/-- C8 (amended): for `rows ≥ 1` and `cols ≥ 1` the constructor raises its own capacity
failure ("Matrix size exceeds maximum capacity") if and only if `rows * cols` exceeds
`2 ^ w - 1`; the guard `cols > MAX / rows` is that very condition, so whenever the guard
lets the call pass the product handed to `resize` is not wrapped, and on success the
buffer has `rows * cols` elements.  A `std::length_error` of any origin is raised if and
only if the guard fires or `rows * cols` exceeds `max_size()`: in the second case it is
`resize` that throws. -/
theorem ThreadVersion.create_capacity_iff (w max_size rows cols : Nat) (fill : T)
    (hr : 1 ≤ rows) (hc : 1 ≤ cols) :
    (ThreadVersion.create w max_size rows cols fill = .error .capacity ↔
        2 ^ w - 1 < rows * cols) ∧
    (cols > SIZE_MAX w / rows ↔ 2 ^ w - 1 < rows * cols) ∧
    (¬ (cols > SIZE_MAX w / rows) → (rows * cols) % 2 ^ w = rows * cols) ∧
    (∀ m, ThreadVersion.create w max_size rows cols fill = .ok m →
        (rows * cols) % 2 ^ w = rows * cols ∧ m.data.length = rows * cols) ∧
    (ThreadVersion.create w max_size rows cols fill = .error .resize_length ↔
        (rows * cols ≤ 2 ^ w - 1 ∧ max_size < rows * cols)) ∧
    ((∃ e, ThreadVersion.create w max_size rows cols fill = .error e ∧
        e.cls = ExceptionClass.length_error) ↔
      (2 ^ w - 1 < rows * cols ∨ max_size < rows * cols)) := by
  have hg := guard_iff w rows cols hr
  have hS : SIZE_MAX w = 2 ^ w - 1 := rfl
  have hnw : ¬ (cols > SIZE_MAX w / rows) → (rows * cols) % 2 ^ w = rows * cols := by
    intro hn
    have : rows * cols ≤ SIZE_MAX w := by
      by_contra hlt
      exact hn (hg.2 (by omega))
    exact wrap_eq this
  rw [hS] at hg
  rcases ThreadVersion.create_cases w max_size rows cols fill with
    ⟨h0, _⟩ | ⟨⟨_, _, hcap⟩, h⟩ | ⟨⟨_, _, hcap, hmax⟩, h⟩ | ⟨⟨_, _, hcap, hmax⟩, h⟩
  · omega
  · rw [hS] at hcap
    rw [h]
    refine ⟨⟨fun _ => hcap, fun _ => rfl⟩, hg, hnw, ?_, ⟨?_, ?_⟩,
      ⟨fun _ => Or.inl hcap, fun _ => ⟨_, rfl, rfl⟩⟩⟩
    · intro m hm; cases hm
    · intro hc'; cases hc'
    · rintro ⟨h1, _⟩; omega
  · have hw := wrap_eq hcap
    rw [hS] at hcap
    rw [h]
    refine ⟨⟨?_, ?_⟩, hg, hnw, ?_, ⟨fun _ => ⟨hcap, hmax⟩, fun _ => rfl⟩,
      ⟨fun _ => Or.inr hmax, fun _ => ⟨_, rfl, rfl⟩⟩⟩
    · intro hc'; cases hc'
    · intro hc'; omega
    · intro m hm; cases hm
  · have hw := wrap_eq hcap
    rw [hS] at hcap
    rw [h]
    refine ⟨⟨?_, ?_⟩, hg, hnw, ?_, ⟨?_, ?_⟩, ⟨?_, ?_⟩⟩
    · intro hc'; cases hc'
    · intro hc'; omega
    · intro m hm
      cases hm
      exact ⟨hw, by simp⟩
    · intro hc'; cases hc'
    · rintro ⟨_, h2⟩; omega
    · rintro ⟨e, he, hcls⟩
      cases he
    · rintro (h1 | h1) <;> omega

/-- Witness of C8 (amended): `Matrix<int>(4294967296, 4294967296)` with a 64-bit size
type. -/
theorem ThreadVersion.create_capacity_iff_witness :
    ThreadVersion.create 64 maxSizeInt (2 ^ 32) (2 ^ 32) (0 : Int) = .error .capacity ∧
    (2 ^ 32 > SIZE_MAX 64 / 2 ^ 32 ↔ 2 ^ 64 - 1 < 2 ^ 32 * 2 ^ 32) :=
  have h := ThreadVersion.create_capacity_iff 64 maxSizeInt (2 ^ 32) (2 ^ 32) (0 : Int)
    (by decide) (by decide)
  ⟨h.1.2 (by decide), h.2.1⟩

/-- Counterexample to C8: with a 64-bit size type and the `max_size()` of
`std::vector<int>`, `Matrix<int>(1, 2^61)` raises `std::length_error` although
`1 * 2^61` does not exceed `2^64 - 1`: the guard lets the call pass and `resize`
throws. -/
theorem ThreadVersion.create_length_error_without_overflow :
    ¬ (2 ^ 64 - 1 < 1 * 2 ^ 61) ∧
    ThreadVersion.create 64 maxSizeInt 1 (2 ^ 61) (0 : Int) = .error .resize_length ∧
    Failure.resize_length.cls = ExceptionClass.length_error :=
  ⟨by decide,
    ThreadVersion.create_resize 64 maxSizeInt 1 (2 ^ 61) (0 : Int) (by decide) (by decide)
      (by decide) (by decide),
    rfl⟩

/-- C9 (amended): for `rows ≥ 1`, `cols ≥ 1` with `rows * cols` within the size type
and within `max_size()`, the constructor succeeds with the requested shape, a buffer of
exactly `rows * cols` elements and every cell equal to the fill value; called without a
fill value, every cell is `T{}`. -/
theorem ThreadVersion.create_filled [Zero T] (w max_size rows cols : Nat) (v : T)
    (hr : 1 ≤ rows) (hc : 1 ≤ cols) (hcap : rows * cols ≤ SIZE_MAX w)
    (hmax : rows * cols ≤ max_size) :
    (∃ m, ThreadVersion.create w max_size rows cols v = .ok m ∧ m.rows = rows ∧
      m.cols = cols ∧ m.data.length = rows * cols ∧
      ∀ i j, i < rows → j < cols → m.elem w i j = .ok v) ∧
    (∃ m : Matrix T, ThreadVersion.createDefault w max_size rows cols = .ok m ∧
      m.rows = rows ∧ m.cols = cols ∧ m.data.length = rows * cols ∧
      ∀ i j, i < rows → j < cols → m.elem w i j = .ok 0) := by
  refine ⟨⟨_, ThreadVersion.create_ok w max_size rows cols v hr hc hcap hmax, rfl, rfl,
      by simp, ?_⟩,
    ⟨_, ThreadVersion.create_ok w max_size rows cols 0 hr hc hcap hmax, rfl, rfl,
      by simp, ?_⟩⟩
  · exact fun i j hi hj => replicate_elem w rows cols v hcap i j hi hj
  · exact fun i j hi hj => replicate_elem w rows cols 0 hcap i j hi hj

/-- Witness of C9 (amended): `Matrix<int> m(2, 3)` with a 64-bit size type, and fill
value 7. -/
theorem ThreadVersion.create_filled_witness :
    (∃ m, ThreadVersion.create 64 maxSizeInt 2 3 (7 : Int) = .ok m ∧ m.rows = 2 ∧
      m.cols = 3 ∧ m.data.length = 2 * 3 ∧
      ∀ i j, i < 2 → j < 3 → m.elem 64 i j = .ok 7) ∧
    (∃ m : Matrix Int, ThreadVersion.createDefault 64 maxSizeInt 2 3 = .ok m ∧
      m.rows = 2 ∧ m.cols = 3 ∧ m.data.length = 2 * 3 ∧
      ∀ i j, i < 2 → j < 3 → m.elem 64 i j = .ok 0) :=
  ThreadVersion.create_filled 64 maxSizeInt 2 3 (7 : Int) (by decide) (by decide)
    (by decide) (by decide)

/-- Counterexample to C9: with a 64-bit size type and the `max_size()` of
`std::vector<int>`, `Matrix<int>(2^31, 2^31, 7)` has `rows, cols ≥ 1` and a product
`2^62` that does not overflow, and the constructor does not succeed: `resize` throws
`std::length_error`. -/
theorem ThreadVersion.create_fails_without_overflow :
    1 ≤ 2 ^ 31 ∧ 2 ^ 31 * 2 ^ 31 ≤ SIZE_MAX 64 ∧
    ThreadVersion.create 64 maxSizeInt (2 ^ 31) (2 ^ 31) (7 : Int) =
      .error .resize_length ∧
    ¬ ∃ m, ThreadVersion.create 64 maxSizeInt (2 ^ 31) (2 ^ 31) (7 : Int) = .ok m := by
  have h : ThreadVersion.create 64 maxSizeInt (2 ^ 31) (2 ^ 31) (7 : Int) =
      .error .resize_length :=
    ThreadVersion.create_resize 64 maxSizeInt (2 ^ 31) (2 ^ 31) (7 : Int) (by decide)
      (by decide) (by decide) (by decide)
  refine ⟨by decide, by decide, h, ?_⟩
  rintro ⟨m, hm⟩
  rw [h] at hm
  cases hm

/-! ## The nested-literal constructor -/

theorem appendRows_ok (cols : Nat) :
    ∀ (rows : List (List T)) (data : List T), (∀ r ∈ rows, r.length = cols) →
      ThreadVersion.appendRows cols rows data = .ok (data ++ rows.flatten) := by
  intro rows
  induction rows with
  | nil => intro data _; simp [ThreadVersion.appendRows]
  | cons r rs ih =>
    intro data h
    have hr : r.length = cols := h r (List.mem_cons_self _ _)
    have hrs : ∀ r' ∈ rs, r'.length = cols := fun r' hr' => h r' (List.mem_cons_of_mem _ hr')
    simp [ThreadVersion.appendRows, hr, ih _ hrs]

theorem appendRows_ragged (cols : Nat) :
    ∀ (rows : List (List T)) (data : List T), (∃ r ∈ rows, r.length ≠ cols) →
      ThreadVersion.appendRows cols rows data = .error .ragged := by
  intro rows
  induction rows with
  | nil => intro data h; simp at h
  | cons r rs ih =>
    intro data h
    by_cases hr : r.length = cols
    · have hrs : ∃ r' ∈ rs, r'.length ≠ cols := by
        obtain ⟨r', hmem, hne⟩ := h
        rcases List.mem_cons.1 hmem with rfl | hmem
        · exact absurd hr hne
        · exact ⟨r', hmem, hne⟩
      simp [ThreadVersion.appendRows, hr, ih _ hrs]
    · simp [ThreadVersion.appendRows, hr]

theorem flatten_length (c : Nat) :
    ∀ (L : List (List T)), (∀ r ∈ L, r.length = c) → L.flatten.length = L.length * c := by
  intro L
  induction L with
  | nil => intro _; simp
  | cons r rs ih =>
    intro h
    have hr : r.length = c := h r (List.mem_cons_self _ _)
    have hrs : ∀ r' ∈ rs, r'.length = c := fun r' hr' => h r' (List.mem_cons_of_mem _ hr')
    rw [List.flatten_cons, List.length_append, ih hrs, hr, List.length_cons, Nat.add_mul]
    omega

theorem loopFrom_error {σ : Type} (body : Nat → σ → Except Failure σ) (Q : Failure → Prop)
    (hbody : ∀ k t e, body k t = .error e → Q e) :
    ∀ (n i : Nat) (s : σ) (e : Failure), loopFrom body n i s = .error e → Q e := by
  intro n
  induction n with
  | zero => intro i s e h; simp [loopFrom] at h
  | succ n ih =>
    intro i s e h
    simp only [loopFrom] at h
    cases hb : body i s with
    | ok s' => rw [hb] at h; exact ih _ _ _ h
    | error e' =>
      rw [hb] at h
      cases h
      exact hbody _ _ _ hb

theorem Matrix.Reads.vecGet_eq {w : Nat} {m : Matrix T} {R C : Nat} {a : Nat → Nat → T}
    (hm : m.Reads w R C a) (hcap : R * C ≤ SIZE_MAX w) {idx : Nat} (hidx : idx < R * C) :
    vecGet m.data idx = .ok (a (idx / C) (idx % C)) := by
  obtain ⟨h1, h2, h3⟩ := split_index hidx
  obtain ⟨hr, hc, hread⟩ := hm
  have := hread _ _ h1 h2
  have hw : idx % 2 ^ w = idx := wrap_eq (by omega)
  simpa [Matrix.elem, hr, hc, h1, h2, h3, hw] using this

theorem fill_loop (body : Nat → Matrix T → Except Failure (Matrix T)) (g : Nat → T)
    (n : Nat) (res0 : Matrix T) (hlen : res0.data.length = n)
    (hbody : ∀ i (res : Matrix T), i < n → res.data.length = n →
      body i res = .ok { res with data := res.data.set i (g i) }) :
    ∃ r, forRange 0 n body res0 = .ok r ∧ r.rows = res0.rows ∧ r.cols = res0.cols ∧
      r.data.length = n ∧ ∀ idx, idx < n → vecGet r.data idx = .ok (g idx) := by
  obtain ⟨r, hr, h1, h2, h3, h4⟩ := forRange_inv body
    (fun k res => res.rows = res0.rows ∧ res.cols = res0.cols ∧ res.data.length = n ∧
      ∀ idx, idx < k → res.data[idx]? = some (g idx))
    0 n res0 (Nat.zero_le n) ⟨rfl, rfl, hlen, fun idx h => absurd h (Nat.not_lt_zero _)⟩
    (by
      intro k res _ hk ⟨p1, p2, p3, p4⟩
      refine ⟨_, hbody k res hk p3, p1, p2, by simp [p3], ?_⟩
      intro idx hidx
      by_cases he : idx = k
      · subst he
        simp [p3, hk]
      · have hne : k ≠ idx := fun h => he h.symm
        simp only [List.getElem?_set_ne hne]
        exact p4 idx (by omega))
  exact ⟨r, hr, h1, h2, h3, fun idx hidx => vecGet_eq_ok.2 (h4 idx hidx)⟩

theorem elem_of_vecGet {w : Nat} {r : Matrix T} {R C : Nat} {g : Nat → T}
    (hr : r.rows = R) (hc : r.cols = C) (hl : r.data.length = R * C)
    (hcap : R * C ≤ SIZE_MAX w) (hg : ∀ idx, idx < R * C → vecGet r.data idx = .ok (g idx))
    {i j : Nat} (hi : i < R) (hj : j < C) : r.elem w i j = .ok (g (i * C + j)) := by
  have hS : r.Shaped w R C := ⟨hr, hc, hl, hcap⟩
  rw [hS.elem_eq hi hj]
  exact hg _ (index_lt hi hj)

theorem vecGet_error {v : List T} {i : Nat} {e : Failure} (h : vecGet v i = .error e) :
    e = .out_of_buffer := by
  unfold vecGet at h
  cases hv : v[i]? with
  | none => rw [hv] at h; cases h; rfl
  | some x => rw [hv] at h; cases h

theorem vecSet_error {v : List T} {i : Nat} {x : T} {e : Failure}
    (h : vecSet v i x = .error e) : e = .out_of_buffer := by
  unfold vecSet at h
  split at h
  · cases h
  · cases h; rfl

/-- The outcome of `operator+` on two readable operands of the same, non-degenerate
shape. -/
theorem add_ok [Zero T] [Add T] (w max_size : Nat) (A B : Matrix T) (R C : Nat)
    (a b : Nat → Nat → T) (hR : 1 ≤ R) (hC : 1 ≤ C) (hcap : R * C ≤ SIZE_MAX w)
    (hmax : R * C ≤ max_size)
    (hA : A.Reads w R C a) (hB : B.Reads w R C b) :
    ∃ r, ThreadVersion.add w max_size A B = .ok r ∧ r.Shaped w R C ∧
      ∀ i j, i < R → j < C → r.elem w i j = .ok (a i j + b i j) := by
  obtain ⟨r, hr, h1, h2, h3, h4⟩ := fill_loop
    (fun i (result : Matrix T) =>
      match vecGet A.data i, vecGet B.data i with
      | .ok a, .ok b =>
        match vecSet result.data i (a + b) with
        | .ok d => .ok { result with data := d }
        | .error e => .error e
      | .error e, _ => .error e
      | _, .error e => .error e)
    (fun idx => a (idx / C) (idx % C) + b (idx / C) (idx % C)) (R * C)
    (⟨List.replicate (R * C) 0, R, C⟩ : Matrix T) (by simp)
    (by
      intro i res hi hlen
      have hl : i < res.data.length := by omega
      simp only [hA.vecGet_eq hcap hi, hB.vecGet_eq hcap hi, vecSet_ok _ hl])
  refine ⟨r, ?_, ⟨h1, h2, h3, hcap⟩, ?_⟩
  · simp only [ThreadVersion.add, ThreadVersion.createDefault, hA.1, hA.2.1, hB.1, hB.2.1,
      ne_eq, not_true_eq_false, or_self, if_false,
      ThreadVersion.create_ok w max_size R C (0 : T) hR hC hcap hmax, wrap_eq hcap]
    exact hr
  · intro i j hi hj
    rw [elem_of_vecGet h1 h2 h3 hcap h4 hi hj, index_div hj, index_mod hj]

/-- The outcome of `operator-` on two readable operands of the same, non-degenerate
shape. -/
theorem sub_ok [Zero T] [Sub T] (w max_size : Nat) (A B : Matrix T) (R C : Nat)
    (a b : Nat → Nat → T) (hR : 1 ≤ R) (hC : 1 ≤ C) (hcap : R * C ≤ SIZE_MAX w)
    (hmax : R * C ≤ max_size)
    (hA : A.Reads w R C a) (hB : B.Reads w R C b) :
    ∃ r, ThreadVersion.sub w max_size A B = .ok r ∧ r.Shaped w R C ∧
      ∀ i j, i < R → j < C → r.elem w i j = .ok (a i j - b i j) := by
  obtain ⟨r, hr, h1, h2, h3, h4⟩ := fill_loop
    (fun i (result : Matrix T) =>
      match vecGet A.data i, vecGet B.data i with
      | .ok a, .ok b =>
        match vecSet result.data i (a - b) with
        | .ok d => .ok { result with data := d }
        | .error e => .error e
      | .error e, _ => .error e
      | _, .error e => .error e)
    (fun idx => a (idx / C) (idx % C) - b (idx / C) (idx % C)) (R * C)
    (⟨List.replicate (R * C) 0, R, C⟩ : Matrix T) (by simp)
    (by
      intro i res hi hlen
      have hl : i < res.data.length := by omega
      simp only [hA.vecGet_eq hcap hi, hB.vecGet_eq hcap hi, vecSet_ok _ hl])
  refine ⟨r, ?_, ⟨h1, h2, h3, hcap⟩, ?_⟩
  · simp only [ThreadVersion.sub, ThreadVersion.createDefault, hA.1, hA.2.1, hB.1, hB.2.1,
      ne_eq, not_true_eq_false, or_self, if_false,
      ThreadVersion.create_ok w max_size R C (0 : T) hR hC hcap hmax, wrap_eq hcap]
    exact hr
  · intro i j hi hj
    rw [elem_of_vecGet h1 h2 h3 hcap h4 hi hj, index_div hj, index_mod hj]

/-- The outcome of the scalar `operator*` on a readable operand of non-degenerate
shape. -/
theorem scale_ok [Zero T] [Mul T] (w max_size : Nat) (A : Matrix T) (s : T) (R C : Nat)
    (a : Nat → Nat → T) (hR : 1 ≤ R) (hC : 1 ≤ C) (hcap : R * C ≤ SIZE_MAX w)
    (hmax : R * C ≤ max_size)
    (hA : A.Reads w R C a) :
    ∃ r, ThreadVersion.scale w max_size A s = .ok r ∧ r.Shaped w R C ∧
      ∀ i j, i < R → j < C → r.elem w i j = .ok (a i j * s) := by
  obtain ⟨r, hr, h1, h2, h3, h4⟩ := fill_loop
    (fun i (result : Matrix T) =>
      match vecGet A.data i with
      | .ok a =>
        match vecSet result.data i (a * s) with
        | .ok d => .ok { result with data := d }
        | .error e => .error e
      | .error e => .error e)
    (fun idx => a (idx / C) (idx % C) * s) (R * C)
    (⟨List.replicate (R * C) 0, R, C⟩ : Matrix T) (by simp)
    (by
      intro i res hi hlen
      have hl : i < res.data.length := by omega
      simp only [hA.vecGet_eq hcap hi, vecSet_ok _ hl])
  refine ⟨r, ?_, ⟨h1, h2, h3, hcap⟩, ?_⟩
  · simp only [ThreadVersion.scale, ThreadVersion.createDefault, hA.1, hA.2.1,
      ThreadVersion.create_ok w max_size R C (0 : T) hR hC hcap hmax, wrap_eq hcap]
    exact hr
  · intro i j hi hj
    rw [elem_of_vecGet h1 h2 h3 hcap h4 hi hj, index_div hj, index_mod hj]

theorem testA_Reads : testA.Reads 64 2 2 cellsA := by
  refine ⟨rfl, rfl, ?_⟩
  intro i j hi hj
  interval_cases i <;> interval_cases j <;> rfl

theorem testB_Reads : testB.Reads 64 2 2 cellsB := by
  refine ⟨rfl, rfl, ?_⟩
  intro i j hi hj
  interval_cases i <;> interval_cases j <;> rfl

theorem add_error_cases [Zero T] [Add T] (w max_size : Nat) (A B : Matrix T) (e : Failure)
    (h : ThreadVersion.add w max_size A B = .error e) :
    e = .add_mismatch ∧ (A.rows ≠ B.rows ∨ A.cols ≠ B.cols) ∨
    e ≠ .add_mismatch ∧ ¬ (A.rows ≠ B.rows ∨ A.cols ≠ B.cols) := by
  unfold ThreadVersion.add at h
  split at h
  · next hs => cases h; exact Or.inl ⟨rfl, hs⟩
  · next hs =>
    refine Or.inr ⟨?_, hs⟩
    unfold ThreadVersion.createDefault at h
    rcases ThreadVersion.create_cases w max_size A.rows A.cols (0 : T) with
      ⟨_, hc⟩ | ⟨_, hc⟩ | ⟨_, hc⟩ | ⟨_, hc⟩
    · rw [hc] at h; cases h; decide
    · rw [hc] at h; cases h; decide
    · rw [hc] at h; cases h; decide
    · rw [hc] at h
      have := loopFrom_error _ (fun e => e = Failure.out_of_buffer) (by
        intro k t e' hb
        cases h1 : vecGet A.data k with
        | error e1 =>
          simp only [h1] at hb
          cases hb
          exact vecGet_error h1
        | ok x =>
          cases h2 : vecGet B.data k with
          | error e2 =>
            simp only [h1, h2] at hb
            cases hb
            exact vecGet_error h2
          | ok y =>
            simp only [h1, h2] at hb
            split at hb
            · cases hb
            · next hv => cases hb; exact vecSet_error hv) _ _ _ _ h
      rw [this]; decide

theorem sub_error_cases [Zero T] [Sub T] (w max_size : Nat) (A B : Matrix T) (e : Failure)
    (h : ThreadVersion.sub w max_size A B = .error e) :
    e = .sub_mismatch ∧ (A.rows ≠ B.rows ∨ A.cols ≠ B.cols) ∨
    e ≠ .sub_mismatch ∧ ¬ (A.rows ≠ B.rows ∨ A.cols ≠ B.cols) := by
  unfold ThreadVersion.sub at h
  split at h
  · next hs => cases h; exact Or.inl ⟨rfl, hs⟩
  · next hs =>
    refine Or.inr ⟨?_, hs⟩
    unfold ThreadVersion.createDefault at h
    rcases ThreadVersion.create_cases w max_size A.rows A.cols (0 : T) with
      ⟨_, hc⟩ | ⟨_, hc⟩ | ⟨_, hc⟩ | ⟨_, hc⟩
    · rw [hc] at h; cases h; decide
    · rw [hc] at h; cases h; decide
    · rw [hc] at h; cases h; decide
    · rw [hc] at h
      have := loopFrom_error _ (fun e => e = Failure.out_of_buffer) (by
        intro k t e' hb
        cases h1 : vecGet A.data k with
        | error e1 =>
          simp only [h1] at hb
          cases hb
          exact vecGet_error h1
        | ok x =>
          cases h2 : vecGet B.data k with
          | error e2 =>
            simp only [h1, h2] at hb
            cases hb
            exact vecGet_error h2
          | ok y =>
            simp only [h1, h2] at hb
            split at hb
            · cases hb
            · next hv => cases hb; exact vecSet_error hv) _ _ _ _ h
      rw [this]; decide

/-- C4 (amended): `operator+` and `operator-` raise their dimension-mismatch failure
exactly when the operands differ in rows or in columns; on operands of one shape with
at least one row and one column (their `R * C` elements within the size type and
within `max_size()`, as the buffer of every operand is) they return a matrix of that
shape whose cell `(i, j)` is `A(i,j) + B(i,j)`, respectively `A(i,j) - B(i,j)`; on
operands of one shape with no row or no column they raise the zero-dimension failure of
the constructor.  Both mismatch failures are of class `std::invalid_argument`. -/
theorem ThreadVersion.add_sub_spec [Zero T] [Add T] [Sub T] (w max_size : Nat) (A B : Matrix T) :
    (ThreadVersion.add w max_size A B = .error .add_mismatch ↔
      (A.rows ≠ B.rows ∨ A.cols ≠ B.cols)) ∧
    (ThreadVersion.sub w max_size A B = .error .sub_mismatch ↔
      (A.rows ≠ B.rows ∨ A.cols ≠ B.cols)) ∧
    (∀ R C a b, 1 ≤ R → 1 ≤ C → R * C ≤ SIZE_MAX w → R * C ≤ max_size →
      A.Reads w R C a → B.Reads w R C b →
      (∃ r, ThreadVersion.add w max_size A B = .ok r ∧ r.rows = R ∧ r.cols = C ∧
        ∀ i j, i < R → j < C → r.elem w i j = .ok (a i j + b i j)) ∧
      (∃ r, ThreadVersion.sub w max_size A B = .ok r ∧ r.rows = R ∧ r.cols = C ∧
        ∀ i j, i < R → j < C → r.elem w i j = .ok (a i j - b i j))) ∧
    (A.rows = B.rows → A.cols = B.cols → (A.rows = 0 ∨ A.cols = 0) →
      ThreadVersion.add w max_size A B = .error .zero_dimension ∧
      ThreadVersion.sub w max_size A B = .error .zero_dimension) ∧
    Failure.add_mismatch.cls = ExceptionClass.invalid_argument ∧
    Failure.sub_mismatch.cls = ExceptionClass.invalid_argument := by
  refine ⟨⟨?_, ?_⟩, ⟨?_, ?_⟩, ?_, ?_, rfl, rfl⟩
  · intro h
    rcases add_error_cases w max_size A B _ h with ⟨_, hs⟩ | ⟨hne, _⟩
    · exact hs
    · exact absurd rfl hne
  · intro hs; simp only [ThreadVersion.add, hs, if_true]
  · intro h
    rcases sub_error_cases w max_size A B _ h with ⟨_, hs⟩ | ⟨hne, _⟩
    · exact hs
    · exact absurd rfl hne
  · intro hs; simp only [ThreadVersion.sub, hs, if_true]
  · intro R C a b hR hC hcap hmax hA hB
    obtain ⟨r, hr, hS, hcell⟩ := add_ok w max_size A B R C a b hR hC hcap hmax hA hB
    obtain ⟨r', hr', hS', hcell'⟩ := sub_ok w max_size A B R C a b hR hC hcap hmax hA hB
    exact ⟨⟨r, hr, hS.1, hS.2.1, hcell⟩, ⟨r', hr', hS'.1, hS'.2.1, hcell'⟩⟩
  · intro h1 h2 h0
    have hs : ¬ (A.rows ≠ B.rows ∨ A.cols ≠ B.cols) := by simp [h1, h2]
    constructor
    · simp only [ThreadVersion.add, hs, if_false, ThreadVersion.createDefault,
        ThreadVersion.create_zero w max_size A.rows A.cols (0 : T) h0]
    · simp only [ThreadVersion.sub, hs, if_false, ThreadVersion.createDefault,
        ThreadVersion.create_zero w max_size A.rows A.cols (0 : T) h0]

/-- Witness of C4 (amended): `{{1, 2}, {3, 4}}` plus and minus `{{5, 6}, {7, 8}}`. -/
theorem ThreadVersion.add_sub_spec_witness :
    (∃ r, ThreadVersion.add 64 maxSizeInt testA testB = .ok r ∧ r.rows = 2 ∧ r.cols = 2 ∧
      ∀ i j, i < 2 → j < 2 → r.elem 64 i j = .ok (cellsA i j + cellsB i j)) ∧
    (∃ r, ThreadVersion.sub 64 maxSizeInt testA testB = .ok r ∧ r.rows = 2 ∧ r.cols = 2 ∧
      ∀ i j, i < 2 → j < 2 → r.elem 64 i j = .ok (cellsA i j - cellsB i j)) :=
  (ThreadVersion.add_sub_spec 64 maxSizeInt testA testB).2.2.1 2 2 cellsA cellsB
    (by decide) (by decide) (by decide) (by decide) testA_Reads testB_Reads

/-- Counterexample to C4: the empty literal `{}` constructs a 0 x 0 matrix; added to or
subtracted from itself (equal shapes) the call raises `std::invalid_argument`. -/
theorem ThreadVersion.add_sub_degenerate :
    ThreadVersion.ofLists ([] : List (List Int)) = .ok emptyLiteral ∧
    ¬ (emptyLiteral.rows ≠ emptyLiteral.rows ∨ emptyLiteral.cols ≠ emptyLiteral.cols) ∧
    ThreadVersion.add 64 maxSizeInt emptyLiteral emptyLiteral = .error .zero_dimension ∧
    ThreadVersion.sub 64 maxSizeInt emptyLiteral emptyLiteral = .error .zero_dimension ∧
    Failure.zero_dimension.cls = ExceptionClass.invalid_argument :=
  ⟨rfl, by decide, rfl, rfl, rfl⟩

/-- C6 (amended): on a matrix with at least one row and one column (its `R * C`
elements within the size type and within `max_size()`, as the buffer of every operand
is) the scalar `operator*` succeeds and returns a matrix of the same shape whose cell `(i, j)` is
`A(i,j) * s`; on a matrix with no row or no column it raises the zero-dimension failure
of the constructor. -/
theorem ThreadVersion.scale_spec [Zero T] [Mul T] (w max_size : Nat) (A : Matrix T) (s : T) :
    (∀ R C a, 1 ≤ R → 1 ≤ C → R * C ≤ SIZE_MAX w → R * C ≤ max_size → A.Reads w R C a →
      ∃ r, ThreadVersion.scale w max_size A s = .ok r ∧ r.rows = R ∧ r.cols = C ∧
        ∀ i j, i < R → j < C → r.elem w i j = .ok (a i j * s)) ∧
    ((A.rows = 0 ∨ A.cols = 0) → ThreadVersion.scale w max_size A s = .error .zero_dimension) := by
  constructor
  · intro R C a hR hC hcap hmax hA
    obtain ⟨r, hr, hS, hcell⟩ := scale_ok w max_size A s R C a hR hC hcap hmax hA
    exact ⟨r, hr, hS.1, hS.2.1, hcell⟩
  · intro h0
    simp only [ThreadVersion.scale, ThreadVersion.createDefault,
      ThreadVersion.create_zero w max_size A.rows A.cols (0 : T) h0]

/-- Witness of C6 (amended): `{{1, 2}, {3, 4}} * 2`. -/
theorem ThreadVersion.scale_spec_witness :
    ∃ r, ThreadVersion.scale 64 maxSizeInt testA 2 = .ok r ∧ r.rows = 2 ∧ r.cols = 2 ∧
      ∀ i j, i < 2 → j < 2 → r.elem 64 i j = .ok (cellsA i j * 2) :=
  (ThreadVersion.scale_spec 64 maxSizeInt testA 2).1 2 2 cellsA
    (by decide) (by decide) (by decide) (by decide) testA_Reads

/-- Counterexample to C6: the 0 x 0 matrix of the empty literal `{}` times a scalar
does not succeed. -/
theorem ThreadVersion.scale_degenerate :
    ThreadVersion.ofLists ([] : List (List Int)) = .ok emptyLiteral ∧
    ThreadVersion.scale 64 maxSizeInt emptyLiteral 2 = .error .zero_dimension :=
  ⟨rfl, rfl⟩

/-! ## Transposition -/

theorem transpose_row [Zero T] (w : Nat) (A res : Matrix T) (R C : Nat)
    (a : Nat → Nat → T) (hA : A.Reads w R C a) (hres : res.Shaped w C R)
    (i : Nat) (hi : i < R) :
    ∃ r, forRange 0 C
        (fun j (result : Matrix T) =>
          match A.elem w i j with
          | .ok x => result.assign w j i x
          | .error e => .error e) res = .ok r ∧
      r.Shaped w C R ∧ (∀ j', j' < C → r.elem w j' i = .ok (a i j')) ∧
      (∀ i' j', i' < R → j' < C → i' ≠ i → r.elem w j' i' = res.elem w j' i') := by
  obtain ⟨r, hr, hS, h1, h2⟩ := forRange_inv
    (fun j (result : Matrix T) =>
      match A.elem w i j with
      | .ok x => result.assign w j i x
      | .error e => .error e)
    (fun j r => r.Shaped w C R ∧ (∀ j', j' < j → j' < C → r.elem w j' i = .ok (a i j')) ∧
      (∀ i' j', i' < R → j' < C → i' ≠ i → r.elem w j' i' = res.elem w j' i'))
    0 C res (Nat.zero_le C)
    ⟨hres, fun j' h => absurd h (Nat.not_lt_zero _), fun _ _ _ _ _ => rfl⟩
    (by
      intro j t _ hj ⟨pS, p1, p2⟩
      obtain ⟨m', hm', hS', hcell⟩ := pS.assign_spec (a i j) hj hi
      refine ⟨m', ?_, hS', ?_, ?_⟩
      · simp only [hA.2.2 i j hi hj]
        exact hm'
      · intro j' hj' hj'C
        rw [hcell j' i hj'C hi]
        by_cases he : j' = j
        · simp [he]
        · have : ¬ (j' = j ∧ i = i) := fun h => he h.1
          rw [if_neg this]
          exact p1 j' (by omega) hj'C
      · intro i' j' hi' hj' hne
        rw [hcell j' i' hj' hi']
        have : ¬ (j' = j ∧ i' = i) := fun h => hne h.2
        rw [if_neg this]
        exact p2 i' j' hi' hj' hne)
  exact ⟨r, hr, hS, fun j' hj' => h1 j' hj' hj', h2⟩

/-- The outcome of `transpose` on a readable operand of non-degenerate shape. -/
theorem transpose_ok [Zero T] (w max_size : Nat) (A : Matrix T) (R C : Nat) (a : Nat → Nat → T)
    (hR : 1 ≤ R) (hC : 1 ≤ C) (hcap : R * C ≤ SIZE_MAX w)
    (hmax : R * C ≤ max_size) (hA : A.Reads w R C a) :
    ∃ r, ThreadVersion.transpose w max_size A = .ok r ∧ r.Shaped w C R ∧
      ∀ i j, i < R → j < C → r.elem w j i = .ok (a i j) := by
  have hcap' : C * R ≤ SIZE_MAX w := by rw [Nat.mul_comm]; exact hcap
  have hmax' : C * R ≤ max_size := by rw [Nat.mul_comm]; exact hmax
  obtain ⟨r, hr, hS, h1⟩ := forRange_inv
    (fun i (result : Matrix T) =>
      forRange 0 C
        (fun j (result : Matrix T) =>
          match A.elem w i j with
          | .ok x => result.assign w j i x
          | .error e => .error e)
        result)
    (fun i r => r.Shaped w C R ∧
      ∀ i' j', i' < i → i' < R → j' < C → r.elem w j' i' = .ok (a i' j'))
    0 R (⟨List.replicate (C * R) 0, C, R⟩ : Matrix T) (Nat.zero_le R)
    ⟨replicate_Shaped w C R 0 hcap', fun i' _ h => absurd h (Nat.not_lt_zero _)⟩
    (by
      intro i t _ hi ⟨pS, p1⟩
      obtain ⟨m', hm', hS', hrow, hframe⟩ := transpose_row w A t R C a hA pS i hi
      refine ⟨m', hm', hS', ?_⟩
      intro i' j' hi' hi'R hj'
      by_cases he : i' = i
      · subst he; exact hrow j' hj'
      · rw [hframe i' j' hi'R hj' he]
        exact p1 i' j' (by omega) hi'R hj')
  refine ⟨r, ?_, hS, fun i j hi hj => h1 i j hi hi hj⟩
  simp only [ThreadVersion.transpose, ThreadVersion.createDefault, hA.1, hA.2.1,
    ThreadVersion.create_ok w max_size C R (0 : T) hC hR hcap' hmax']
  exact hr

/-- C5 (amended): on a matrix with at least one row and one column (its `R * C`
elements within the size type and within `max_size()`, as the buffer of every operand
is) `transpose` succeeds and returns a matrix of shape `cols x rows` with `result(j, i) = A(i, j)`;
on a matrix with no row or no column it raises the zero-dimension failure of the
constructor. -/
theorem ThreadVersion.transpose_spec [Zero T] (w max_size : Nat) (A : Matrix T) :
    (∀ R C a, 1 ≤ R → 1 ≤ C → R * C ≤ SIZE_MAX w → R * C ≤ max_size → A.Reads w R C a →
      ∃ r, ThreadVersion.transpose w max_size A = .ok r ∧ r.rows = C ∧ r.cols = R ∧
        ∀ i j, i < R → j < C → r.elem w j i = .ok (a i j)) ∧
    ((A.rows = 0 ∨ A.cols = 0) → ThreadVersion.transpose w max_size A = .error .zero_dimension) := by
  constructor
  · intro R C a hR hC hcap hmax hA
    obtain ⟨r, hr, hS, hcell⟩ := transpose_ok w max_size A R C a hR hC hcap hmax hA
    exact ⟨r, hr, hS.1, hS.2.1, hcell⟩
  · intro h0
    simp only [ThreadVersion.transpose, ThreadVersion.createDefault,
      ThreadVersion.create_zero w max_size A.cols A.rows (0 : T) (Or.comm.1 h0)]

/-- Witness of C5 (amended): the transpose of `{{1, 2}, {3, 4}}`. -/
theorem ThreadVersion.transpose_spec_witness :
    ∃ r, ThreadVersion.transpose 64 maxSizeInt testA = .ok r ∧ r.rows = 2 ∧ r.cols = 2 ∧
      ∀ i j, i < 2 → j < 2 → r.elem 64 j i = .ok (cellsA i j) :=
  (ThreadVersion.transpose_spec 64 maxSizeInt testA).1 2 2 cellsA
    (by decide) (by decide) (by decide) (by decide) testA_Reads

/-- Counterexample to C5: the 0 x 0 matrix of the empty literal `{}` is obtained from a
constructor, and its transpose does not succeed. -/
theorem ThreadVersion.transpose_degenerate :
    ThreadVersion.ofLists ([] : List (List Int)) = .ok emptyLiteral ∧
    ThreadVersion.transpose 64 maxSizeInt emptyLiteral = .error .zero_dimension :=
  ⟨rfl, rfl⟩

/-! ## Matrix multiplication: one worker -/

theorem dotLoop_ok [Zero T] [Add T] [Mul T] (w : Nat) (A B : Matrix T) (R K C : Nat)
    (a b : Nat → Nat → T) (hA : A.Reads w R K a) (hB : B.Reads w K C b)
    (i j : Nat) (hi : i < R) (hj : j < C) :
    ThreadVersion.dotLoop w A B i j = .ok (dotSum a b K i j) := by
  obtain ⟨r, hr, hP⟩ := forRange_inv
    (fun k (sum : T) =>
      match A.elem w i k, B.elem w k j with
      | .ok x, .ok y => .ok (sum + x * y)
      | .error e, _ => .error e
      | _, .error e => .error e)
    (fun k s => s = (List.range k).foldl (fun s k => s + a i k * b k j) 0)
    0 K (0 : T) (Nat.zero_le K) (by simp)
    (by
      intro k t _ hk hP
      refine ⟨t + a i k * b k j, ?_, ?_⟩
      · simp only [hA.2.2 i k hi hk, hB.2.2 k j hk hj]
      · show t + a i k * b k j =
          (List.range (k + 1)).foldl (fun s k => s + a i k * b k j) 0
        rw [List.range_succ, List.foldl_append, ← hP]
        rfl)
  subst hP
  simp only [ThreadVersion.dotLoop, hA.2.1]
  exact hr

theorem multiply_row [Zero T] [Add T] [Mul T] (w : Nat) (A B res : Matrix T)
    (R K C : Nat) (a b : Nat → Nat → T) (hA : A.Reads w R K a) (hB : B.Reads w K C b)
    (hres : res.Shaped w R C) (i : Nat) (hi : i < R) :
    ∃ r, forRange 0 C
        (fun j (result : Matrix T) =>
          match ThreadVersion.dotLoop w A B i j with
          | .ok sum => result.assign w i j sum
          | .error e => .error e) res = .ok r ∧
      r.Shaped w R C ∧ (∀ j', j' < C → r.elem w i j' = .ok (dotSum a b K i j')) ∧
      (∀ i' j', i' < R → j' < C → i' ≠ i → r.elem w i' j' = res.elem w i' j') := by
  obtain ⟨r, hr, hS, h1, h2⟩ := forRange_inv
    (fun j (result : Matrix T) =>
      match ThreadVersion.dotLoop w A B i j with
      | .ok sum => result.assign w i j sum
      | .error e => .error e)
    (fun j r => r.Shaped w R C ∧
      (∀ j', j' < j → j' < C → r.elem w i j' = .ok (dotSum a b K i j')) ∧
      (∀ i' j', i' < R → j' < C → i' ≠ i → r.elem w i' j' = res.elem w i' j'))
    0 C res (Nat.zero_le C)
    ⟨hres, fun j' h => absurd h (Nat.not_lt_zero _), fun _ _ _ _ _ => rfl⟩
    (by
      intro j t _ hj ⟨pS, p1, p2⟩
      obtain ⟨m', hm', hS', hcell⟩ := pS.assign_spec (dotSum a b K i j) hi hj
      refine ⟨m', ?_, hS', ?_, ?_⟩
      · simp only [dotLoop_ok w A B R K C a b hA hB i j hi hj]
        exact hm'
      · intro j' hj' hj'C
        rw [hcell i j' hi hj'C]
        by_cases he : j' = j
        · simp [he]
        · have : ¬ (i = i ∧ j' = j) := fun h => he h.2
          rw [if_neg this]
          exact p1 j' (by omega) hj'C
      · intro i' j' hi' hj' hne
        rw [hcell i' j' hi' hj']
        have : ¬ (i' = i ∧ j' = j) := fun h => hne h.1
        rw [if_neg this]
        exact p2 i' j' hi' hj' hne)
  exact ⟨r, hr, hS, fun j' hj' => h1 j' hj' hj', h2⟩

/-- What `multiply_rows` does to `result` for one band `[start_row, end_row)`. -/
theorem multiply_rows_band [Zero T] [Add T] [Mul T] (w : Nat) (A B res : Matrix T)
    (R K C : Nat) (a b : Nat → Nat → T) (hA : A.Reads w R K a) (hB : B.Reads w K C b)
    (hres : res.Shaped w R C) (start_row end_row : Nat)
    (hle : start_row ≤ end_row) (hend : end_row ≤ R) :
    ∃ r, ThreadVersion.multiply_rows w A res B start_row end_row = .ok r ∧
      r.Shaped w R C ∧
      (∀ i j, start_row ≤ i → i < end_row → j < C →
        r.elem w i j = .ok (dotSum a b K i j)) ∧
      (∀ i j, i < R → j < C → ¬ (start_row ≤ i ∧ i < end_row) →
        r.elem w i j = res.elem w i j) := by
  obtain ⟨r, hr, hS, h1, h2⟩ := forRange_inv
    (fun i (result : Matrix T) =>
      forRange 0 C
        (fun j (result : Matrix T) =>
          match ThreadVersion.dotLoop w A B i j with
          | .ok sum => result.assign w i j sum
          | .error e => .error e)
        result)
    (fun i r => r.Shaped w R C ∧
      (∀ i' j', start_row ≤ i' → i' < i → j' < C →
        r.elem w i' j' = .ok (dotSum a b K i' j')) ∧
      (∀ i' j', i' < R → j' < C → ¬ (start_row ≤ i' ∧ i' < i) →
        r.elem w i' j' = res.elem w i' j'))
    start_row end_row res hle
    ⟨hres, fun i' _ h1 h2 => absurd h2 (by omega), fun _ _ _ _ _ => rfl⟩
    (by
      intro i t hsi hi ⟨pS, p1, p2⟩
      have hiR : i < R := by omega
      obtain ⟨m', hm', hS', hrow, hframe⟩ :=
        multiply_row w A B t R K C a b hA hB pS i hiR
      refine ⟨m', hm', hS', ?_, ?_⟩
      · intro i' j' hs' hi' hj'
        by_cases he : i' = i
        · subst he; exact hrow j' hj'
        · rw [hframe i' j' (by omega) hj' he]
          exact p1 i' j' hs' (by omega) hj'
      · intro i' j' hi' hj' hout
        have he : i' ≠ i := by omega
        rw [hframe i' j' hi' hj' he]
        exact p2 i' j' hi' hj' (by omega))
  refine ⟨r, ?_, hS, h1, h2⟩
  simp only [ThreadVersion.multiply_rows, hB.2.1]
  exact hr

theorem threadBody_eq [Zero T] [Add T] [Mul T] (w : Nat) (A res B : Matrix T)
    (start_row end_row : Nat) :
    ThreadVersion.threadBody w A res B start_row end_row =
      ThreadVersion.multiply_rows w A res B start_row end_row := rfl

/-! ## Matrix multiplication: the bands and the threads -/

theorem spawnLoop_spec (w R W q : Nat) (hq : W * q ≤ R) (hR : R ≤ SIZE_MAX w) :
    ∀ (count i start : Nat), i + (count + 1) = W → start = i * q →
      (∀ b ∈ ThreadVersion.spawnLoop w R W q (count + 1) i start, b.1 ≤ b.2 ∧ b.2 ≤ R) ∧
      (∀ x, start ≤ x → x < R →
        ∃ b ∈ ThreadVersion.spawnLoop w R W q (count + 1) i start, b.1 ≤ x ∧ x < b.2) := by
  intro count
  induction count with
  | zero =>
    intro i start hi hstart
    have hlast : i = W - 1 := by omega
    have hle : i * q ≤ W * q := Nat.mul_le_mul_right q (by omega)
    simp only [ThreadVersion.spawnLoop, hlast, if_true, List.mem_singleton]
    constructor
    · rintro b rfl
      exact ⟨by simp only; omega, Nat.le_refl R⟩
    · intro x hx hxR
      exact ⟨_, rfl, hx, hxR⟩
  | succ count ih =>
    intro i start hi hstart
    have hnl : ¬ (i = W - 1) := by omega
    have hle : (i + 1) * q ≤ W * q := Nat.mul_le_mul_right q (by omega)
    have hnext : start + q = (i + 1) * q := by rw [hstart, Nat.add_mul]; omega
    have hwrap : (start + q) % 2 ^ w = (i + 1) * q := by
      rw [hnext]; exact wrap_eq (by omega)
    obtain ⟨ih1, ih2⟩ := ih (i + 1) ((i + 1) * q) (by omega) rfl
    have hunf : ThreadVersion.spawnLoop w R W q (count + 1 + 1) i start =
        (start, (i + 1) * q) ::
          ThreadVersion.spawnLoop w R W q (count + 1) (i + 1) ((i + 1) * q) := by
      conv => lhs; unfold ThreadVersion.spawnLoop
      simp only [hnl, if_false, hwrap]
    rw [hunf]
    constructor
    · intro b hb
      rcases List.mem_cons.1 hb with rfl | hb
      · exact ⟨by simp only; omega, by simp only; omega⟩
      · exact ih1 b hb
    · intro x hx hxR
      by_cases hlt : x < (i + 1) * q
      · exact ⟨_, List.mem_cons_self _ _, hx, hlt⟩
      · obtain ⟨b, hb, hb1, hb2⟩ := ih2 x (by omega) hxR
        exact ⟨b, List.mem_cons_of_mem _ hb, hb1, hb2⟩

/-- The bands of `operator*` lie inside `[0, rows)` and cover it. -/
theorem bands_cover (w R W : Nat) (hW : 1 ≤ W) (hR : R ≤ SIZE_MAX w) :
    (∀ b ∈ ThreadVersion.bands w R W, b.1 ≤ b.2 ∧ b.2 ≤ R) ∧
    (∀ x, x < R → ∃ b ∈ ThreadVersion.bands w R W, b.1 ≤ x ∧ x < b.2) := by
  have hq : W * (R / W) ≤ R := Nat.mul_div_le R W
  obtain ⟨h1, h2⟩ := spawnLoop_spec w R W (R / W) hq hR (W - 1) 0 0 (by omega) (by simp)
  have hW' : W - 1 + 1 = W := by omega
  rw [hW'] at h1 h2
  exact ⟨h1, fun x hx => h2 x (Nat.zero_le x) hx⟩

/-- What the threads do to `result`, whatever the order in which their bands run. -/
theorem runThreads_spec [Zero T] [Add T] [Mul T] (w : Nat) (A B : Matrix T)
    (R K C : Nat) (a b : Nat → Nat → T) (hA : A.Reads w R K a) (hB : B.Reads w K C b) :
    ∀ (order : List (Nat × Nat)) (res : Matrix T), res.Shaped w R C →
      (∀ p ∈ order, p.1 ≤ p.2 ∧ p.2 ≤ R) →
      ∃ r, ThreadVersion.runThreads w A B order res = .ok r ∧ r.Shaped w R C ∧
        (∀ i j, j < C → (∃ p ∈ order, p.1 ≤ i ∧ i < p.2) →
          r.elem w i j = .ok (dotSum a b K i j)) ∧
        (∀ i j, i < R → j < C → ¬ (∃ p ∈ order, p.1 ≤ i ∧ i < p.2) →
          r.elem w i j = res.elem w i j) := by
  intro order
  induction order with
  | nil =>
    intro res hres _
    refine ⟨res, rfl, hres, ?_, fun _ _ _ _ _ => rfl⟩
    rintro i j _ ⟨p, hp, _⟩
    cases hp
  | cons p rest ih =>
    intro res hres hvalid
    obtain ⟨s, e⟩ := p
    obtain ⟨hse, heR⟩ := hvalid (s, e) (List.mem_cons_self _ _)
    obtain ⟨r1, hr1, hS1, hin1, hout1⟩ :=
      multiply_rows_band w A B res R K C a b hA hB hres s e hse heR
    obtain ⟨r, hr, hS, hin, hout⟩ := ih r1 hS1
      (fun p hp => hvalid p (List.mem_cons_of_mem _ hp))
    refine ⟨r, ?_, hS, ?_, ?_⟩
    · simp only [ThreadVersion.runThreads, threadBody_eq, hr1]
      exact hr
    · intro i j hj hcov
      by_cases hrest : ∃ p ∈ rest, p.1 ≤ i ∧ i < p.2
      · exact hin i j hj hrest
      · obtain ⟨p, hp, hp1, hp2⟩ := hcov
        rcases List.mem_cons.1 hp with rfl | hp
        · rw [hout i j (by simp only at hp2; omega) hj hrest]
          exact hin1 i j hp1 hp2 hj
        · exact absurd ⟨p, hp, hp1, hp2⟩ hrest
    · intro i j hi hj hncov
      have hrest : ¬ ∃ p ∈ rest, p.1 ≤ i ∧ i < p.2 := by
        rintro ⟨p, hp, h⟩
        exact hncov ⟨p, List.mem_cons_of_mem _ hp, h⟩
      have hfirst : ¬ (s ≤ i ∧ i < e) := fun h => hncov ⟨(s, e), List.mem_cons_self _ _, h⟩
      rw [hout i j hi hj hrest]
      exact hout1 i j hi hj hfirst

/-! ## Matrix multiplication: the whole operator -/

theorem operatorMulIn_eq [Zero T] [Add T] [Mul T] (w max_size W : Nat) (order : List (Nat × Nat))
    (A B : Matrix T) (h : A.cols = B.rows) :
    ThreadVersion.operatorMulIn w max_size W order A B =
      match ThreadVersion.create w max_size A.rows B.cols (0 : T) with
      | .error e => .error e
      | .ok result =>
        if W = 0 then ThreadVersion.multiply_rows w A result B 0 A.rows
        else ThreadVersion.runThreads w A B order result := by
  unfold ThreadVersion.operatorMulIn
  rw [if_neg (fun hne => hne h)]
  rfl

theorem sequential_operatorMul_eq [Zero T] [Add T] [Mul T] (w max_size : Nat) (A B : Matrix T)
    (h : A.cols = B.rows) :
    Sequential.operatorMul w max_size A B =
      match Sequential.create w max_size A.rows B.cols (0 : T) with
      | .error e => .error e
      | .ok result => ThreadVersion.multiply_rows w A result B 0 A.rows := by
  unfold Sequential.operatorMul
  rw [if_neg (fun hne => hne h)]
  rfl

theorem sequential_create_ok [Zero T] (w max_size R C : Nat) (v : T) (hR : 1 ≤ R)
    (hC : 1 ≤ C) (hmax : (R * C) % 2 ^ w ≤ max_size) :
    Sequential.create w max_size R C v = .ok ⟨List.replicate ((R * C) % 2 ^ w) 0, R, C⟩ := by
  have h0 : ¬ (R = 0 ∨ C = 0) := by omega
  have h2 : ¬ ((R * C) % 2 ^ w > max_size) := by omega
  simp only [Sequential.create, h0, if_false, vecResize, h2]

theorem sequential_create_resize [Zero T] (w max_size R C : Nat) (v : T) (hR : 1 ≤ R)
    (hC : 1 ≤ C) (hmax : max_size < (R * C) % 2 ^ w) :
    Sequential.create w max_size R C v = .error .resize_length := by
  have h0 : ¬ (R = 0 ∨ C = 0) := by omega
  have h2 : (R * C) % 2 ^ w > max_size := hmax
  simp only [Sequential.create, h0, if_false, vecResize, h2, if_true]

theorem perm_bands_cover (w R W : Nat) (order : List (Nat × Nat)) (hW : W ≠ 0)
    (hR : R ≤ SIZE_MAX w) (hperm : order.Perm (ThreadVersion.bands w R W)) :
    (∀ p ∈ order, p.1 ≤ p.2 ∧ p.2 ≤ R) ∧
    (∀ x, x < R → ∃ p ∈ order, p.1 ≤ x ∧ x < p.2) := by
  obtain ⟨h1, h2⟩ := bands_cover w R W (by omega) hR
  constructor
  · intro p hp; exact h1 p (hperm.mem_iff.1 hp)
  · intro x hx
    obtain ⟨p, hp, h⟩ := h2 x hx
    exact ⟨p, hperm.mem_iff.2 hp, h⟩

theorem rows_le_SIZE_MAX {w R C : Nat} (hC : 1 ≤ C) (hcap : R * C ≤ SIZE_MAX w) :
    R ≤ SIZE_MAX w :=
  Nat.le_trans (Nat.le_mul_of_pos_right R hC) hcap

/-- The threaded `operator*` on readable, compatible, non-degenerate operands whose
result fits the size type. -/
theorem operatorMulIn_ok [Zero T] [Add T] [Mul T] (w max_size W R K C : Nat)
    (order : List (Nat × Nat)) (A B : Matrix T) (a b : Nat → Nat → T)
    (hR : 1 ≤ R) (hC : 1 ≤ C) (hcap : R * C ≤ SIZE_MAX w)
    (hmax : R * C ≤ max_size)
    (hA : A.Reads w R K a) (hB : B.Reads w K C b)
    (hperm : order.Perm (ThreadVersion.bands w R W)) :
    ∃ r, ThreadVersion.operatorMulIn w max_size W order A B = .ok r ∧ r.Shaped w R C ∧
      ∀ i j, i < R → j < C → r.elem w i j = .ok (dotSum a b K i j) := by
  have hinner : A.cols = B.rows := hA.2.1.trans hB.1.symm
  rw [operatorMulIn_eq w max_size W order A B hinner, hA.1, hB.2.1,
    ThreadVersion.create_ok w max_size R C (0 : T) hR hC hcap hmax]
  have hres := replicate_Shaped w R C (0 : T) hcap
  by_cases hW : W = 0
  · obtain ⟨r, hr, hS, hin, _⟩ :=
      multiply_rows_band w A B _ R K C a b hA hB hres 0 R (Nat.zero_le R) (Nat.le_refl R)
    refine ⟨r, ?_, hS, fun i j hi hj => hin i j (Nat.zero_le i) hi hj⟩
    simp only [hW, if_true]
    exact hr
  · obtain ⟨hvalid, hcover⟩ :=
      perm_bands_cover w R W order hW (rows_le_SIZE_MAX hC hcap) hperm
    obtain ⟨r, hr, hS, hin, _⟩ :=
      runThreads_spec w A B R K C a b hA hB order _ hres hvalid
    refine ⟨r, ?_, hS, fun i j hi hj => hin i j hj (hcover i hi)⟩
    simp only [hW, if_false]
    exact hr

/-- The sequential `operator*` of main.cpp on readable, compatible, non-degenerate
operands whose result fits the size type. -/
theorem sequential_operatorMul_ok [Zero T] [Add T] [Mul T] (w max_size R K C : Nat)
    (A B : Matrix T) (a b : Nat → Nat → T)
    (hR : 1 ≤ R) (hC : 1 ≤ C) (hcap : R * C ≤ SIZE_MAX w)
    (hmax : R * C ≤ max_size)
    (hA : A.Reads w R K a) (hB : B.Reads w K C b) :
    ∃ r, Sequential.operatorMul w max_size A B = .ok r ∧ r.Shaped w R C ∧
      ∀ i j, i < R → j < C → r.elem w i j = .ok (dotSum a b K i j) := by
  have hinner : A.cols = B.rows := hA.2.1.trans hB.1.symm
  rw [sequential_operatorMul_eq w max_size A B hinner, hA.1, hB.2.1,
    sequential_create_ok w max_size R C (0 : T) hR hC (by rw [wrap_eq hcap]; exact hmax),
    wrap_eq hcap]
  have hres := replicate_Shaped w R C (0 : T) hcap
  obtain ⟨r, hr, hS, hin, _⟩ :=
    multiply_rows_band w A B _ R K C a b hA hB hres 0 R (Nat.zero_le R) (Nat.le_refl R)
  exact ⟨r, hr, hS, fun i j hi hj => hin i j (Nat.zero_le i) hi hj⟩

theorem operatorMulIn_capacity [Zero T] [Add T] [Mul T] (w max_size W : Nat)
    (order : List (Nat × Nat)) (A B : Matrix T) (h : A.cols = B.rows)
    (hR : 1 ≤ A.rows) (hC : 1 ≤ B.cols) (hcap : SIZE_MAX w < A.rows * B.cols) :
    ThreadVersion.operatorMulIn w max_size W order A B = .error .capacity := by
  rw [operatorMulIn_eq w max_size W order A B h,
    ThreadVersion.create_capacity w max_size A.rows B.cols (0 : T) hR hC hcap]

theorem operatorMulIn_resize [Zero T] [Add T] [Mul T] (w max_size W : Nat)
    (order : List (Nat × Nat)) (A B : Matrix T) (h : A.cols = B.rows)
    (hR : 1 ≤ A.rows) (hC : 1 ≤ B.cols) (hcap : A.rows * B.cols ≤ SIZE_MAX w)
    (hmax : max_size < A.rows * B.cols) :
    ThreadVersion.operatorMulIn w max_size W order A B = .error .resize_length := by
  rw [operatorMulIn_eq w max_size W order A B h,
    ThreadVersion.create_resize w max_size A.rows B.cols (0 : T) hR hC hcap hmax]

theorem operatorMulIn_zero [Zero T] [Add T] [Mul T] (w max_size W : Nat)
    (order : List (Nat × Nat)) (A B : Matrix T) (h : A.cols = B.rows)
    (h0 : A.rows = 0 ∨ B.cols = 0) :
    ThreadVersion.operatorMulIn w max_size W order A B = .error .zero_dimension := by
  rw [operatorMulIn_eq w max_size W order A B h, ThreadVersion.create_zero w max_size A.rows B.cols (0 : T) h0]

theorem tallColumn_Reads : tallColumn.Reads 64 (2 ^ 32) 1 zeroCells :=
  ⟨rfl, rfl, fun i j hi hj => replicate_elem 64 (2 ^ 32) 1 0 (by decide) i j hi hj⟩

theorem wideRow_Reads : wideRow.Reads 64 1 (2 ^ 32) zeroCells :=
  ⟨rfl, rfl, fun i j hi hj => replicate_elem 64 1 (2 ^ 32) 0 (by decide) i j hi hj⟩

/-- C1 (amended): for `A` of shape `R x K` and `B` of shape `K x C` with `R, C ≥ 1`,
whatever the worker count and the order in which the bands run: when `R * C` fits the
size type and does not exceed `max_size()`, `operator*` returns a matrix of shape
`R x C` whose cell `(i, j)` is the sum over `k = 0 .. K-1` of `A(i,k) * B(k,j)`,
accumulated from `T{}` in ascending `k`; when `R * C` exceeds the size type it raises
the capacity failure of the constructor, and when it fits the size type but exceeds
`max_size()` the `resize` of the result throws; both are `std::length_error`. -/
theorem ThreadVersion.operatorMul_cells [Zero T] [Add T] [Mul T] (w max_size W R K C : Nat)
    (order : List (Nat × Nat)) (A B : Matrix T) (a b : Nat → Nat → T)
    (hR : 1 ≤ R) (hC : 1 ≤ C) (hA : A.Reads w R K a) (hB : B.Reads w K C b)
    (hperm : order.Perm (ThreadVersion.bands w R W)) :
    (R * C ≤ SIZE_MAX w → R * C ≤ max_size →
      ∃ r, ThreadVersion.operatorMulIn w max_size W order A B = .ok r ∧ r.rows = R ∧
        r.cols = C ∧
        ∀ i j, i < R → j < C →
          r.elem w i j = .ok ((List.range K).foldl (fun s k => s + a i k * b k j) 0)) ∧
    (SIZE_MAX w < R * C →
      ThreadVersion.operatorMulIn w max_size W order A B = .error .capacity) ∧
    (R * C ≤ SIZE_MAX w → max_size < R * C →
      ThreadVersion.operatorMulIn w max_size W order A B = .error .resize_length) ∧
    Failure.capacity.cls = ExceptionClass.length_error ∧
    Failure.resize_length.cls = ExceptionClass.length_error := by
  have hinner : A.cols = B.rows := hA.2.1.trans hB.1.symm
  refine ⟨?_, ?_, ?_, rfl, rfl⟩
  · intro hcap hmax
    obtain ⟨r, hr, hS, hcell⟩ :=
      operatorMulIn_ok w max_size W R K C order A B a b hR hC hcap hmax hA hB hperm
    exact ⟨r, hr, hS.1, hS.2.1, hcell⟩
  · intro hcap
    apply operatorMulIn_capacity w max_size W order A B hinner
    · rw [hA.1]; exact hR
    · rw [hB.2.1]; exact hC
    · rw [hA.1, hB.2.1]; exact hcap
  · intro hcap hmax
    apply operatorMulIn_resize w max_size W order A B hinner
    · rw [hA.1]; exact hR
    · rw [hB.2.1]; exact hC
    · rw [hA.1, hB.2.1]; exact hcap
    · rw [hA.1, hB.2.1]; exact hmax

/-- Witness of C1 (amended): `{{1, 2}, {3, 4}} * {{5, 6}, {7, 8}}` with three workers. -/
theorem ThreadVersion.operatorMul_cells_witness :
    (∃ r, ThreadVersion.operatorMulIn 64 maxSizeInt 3 (ThreadVersion.bands 64 2 3) testA testB = .ok r ∧
      r.rows = 2 ∧ r.cols = 2 ∧
      ∀ i j, i < 2 → j < 2 →
        r.elem 64 i j =
          .ok ((List.range 2).foldl (fun s k => s + cellsA i k * cellsB k j) 0)) ∧
    ThreadVersion.operatorMul 64 maxSizeInt 3 testA testB = .ok ⟨[19, 22, 43, 50], 2, 2⟩ :=
  ⟨(ThreadVersion.operatorMul_cells 64 maxSizeInt 3 2 2 2 (ThreadVersion.bands 64 2 3) testA testB
      cellsA cellsB (by decide) (by decide) testA_Reads testB_Reads (List.Perm.refl _)).1
      (by decide) (by decide), rfl⟩

/-- Counterexample to C1: with a 64-bit size type, a `2^32 x 1` matrix times a
`1 x 2^32` matrix (`R = C = 2^32`, `K = 1`) is not returned: the result would have
`2^64` cells and `operator*` raises `std::length_error`. -/
theorem ThreadVersion.operatorMul_overflow :
    tallColumn.Reads 64 (2 ^ 32) 1 zeroCells ∧ wideRow.Reads 64 1 (2 ^ 32) zeroCells ∧
    ThreadVersion.operatorMul 64 maxSizeInt 8 tallColumn wideRow = .error .capacity :=
  ⟨tallColumn_Reads, wideRow_Reads,
    operatorMulIn_capacity 64 maxSizeInt 8 _ tallColumn wideRow rfl (by decide) (by decide) (by decide)⟩

/-! ## The threaded multiply against the sequential one -/

theorem forRange_head_error {σ : Type} (body : Nat → σ → Except Failure σ)
    (start stop : Nat) (s : σ) (e : Failure) (hlt : start < stop)
    (hb : body start s = .error e) : forRange start stop body s = .error e := by
  have : stop - start = (stop - start - 1) + 1 := by omega
  unfold forRange
  rw [this]
  simp only [loopFrom, hb]

/-- The sequential multiply of main.cpp when the wrapped product `rows * cols` is zero:
the result buffer is empty and the first assignment indexes it out of its size. -/
theorem sequential_operatorMul_wrapped [Zero T] [Add T] [Mul T] (w max_size R K C : Nat)
    (A B : Matrix T) (a b : Nat → Nat → T) (hR : 1 ≤ R) (hC : 1 ≤ C)
    (hz : (R * C) % 2 ^ w = 0) (hA : A.Reads w R K a) (hB : B.Reads w K C b) :
    Sequential.operatorMul w max_size A B = .error .out_of_buffer := by
  have hinner : A.cols = B.rows := hA.2.1.trans hB.1.symm
  rw [sequential_operatorMul_eq w max_size A B hinner, hA.1, hB.2.1,
    sequential_create_ok w max_size R C (0 : T) hR hC (by rw [hz]; exact Nat.zero_le _), hz]
  show ThreadVersion.multiply_rows w A ⟨List.replicate 0 0, R, C⟩ B 0 R = _
  unfold ThreadVersion.multiply_rows
  apply forRange_head_error _ _ _ _ _ (by omega)
  apply forRange_head_error _ _ _ _ _ (by rw [hB.2.1]; omega)
  have h0R : 0 < R := by omega
  have h0C : 0 < C := by omega
  simp [dotLoop_ok w A B R K C a b hA hB 0 0 h0R h0C, Matrix.assign, vecSet, h0R, h0C]

/-- C2 (amended): for dimension-compatible `A` (`R x K`) and `B` (`K x C`) whose product
size `R * C` fits the size type, for every worker count `W` (zero included) and every
order in which the bands run, the row-band multiply of ThreadVersion/Matrix.h has
exactly the outcome of the sequential triple loop of main.cpp: the same matrix, or for
`R = 0` or `C = 0` the same zero-dimension failure, or for `R * C` beyond `max_size()`
the same `std::length_error` of `resize`.  The outcome therefore does not depend on
`W`. -/
theorem ThreadVersion.operatorMul_eq_sequential [Zero T] [Add T] [Mul T]
    (w max_size W R K C : Nat) (order : List (Nat × Nat)) (A B : Matrix T) (a b : Nat → Nat → T)
    (hA : A.Reads w R K a) (hB : B.Reads w K C b) (hcap : R * C ≤ SIZE_MAX w)
    (hperm : order.Perm (ThreadVersion.bands w R W)) :
    ThreadVersion.operatorMulIn w max_size W order A B = Sequential.operatorMul w max_size A B := by
  have hinner : A.cols = B.rows := hA.2.1.trans hB.1.symm
  by_cases h0 : R = 0 ∨ C = 0
  · have h0' : A.rows = 0 ∨ B.cols = 0 := by rw [hA.1, hB.2.1]; exact h0
    rw [operatorMulIn_zero w max_size W order A B hinner h0', sequential_operatorMul_eq w max_size A B hinner]
    simp only [Sequential.create, h0', if_true]
  · have hR : 1 ≤ R := by omega
    have hC : 1 ≤ C := by omega
    by_cases hmax : R * C ≤ max_size
    · obtain ⟨r, hr, hS, hcell⟩ :=
        operatorMulIn_ok w max_size W R K C order A B a b hR hC hcap hmax hA hB hperm
      obtain ⟨r', hr', hS', hcell'⟩ :=
        sequential_operatorMul_ok w max_size R K C A B a b hR hC hcap hmax hA hB
      rw [hr, hr']
      have : r = r' :=
        hS.ext hS' (fun i j hi hj => by rw [hcell i j hi hj, hcell' i j hi hj])
      rw [this]
    · have hmax' : max_size < R * C := by omega
      have e1 : ThreadVersion.operatorMulIn w max_size W order A B = .error .resize_length :=
        operatorMulIn_resize w max_size W order A B hinner (by rw [hA.1]; exact hR)
          (by rw [hB.2.1]; exact hC) (by rw [hA.1, hB.2.1]; exact hcap)
          (by rw [hA.1, hB.2.1]; exact hmax')
      rw [e1, sequential_operatorMul_eq w max_size A B hinner, hA.1, hB.2.1,
        sequential_create_resize w max_size R C (0 : T) hR hC
          (by rw [wrap_eq hcap]; exact hmax')]

/-- Witness of C2 (amended): `{{1, 2}, {3, 4}} * {{5, 6}, {7, 8}}` with three workers
whose bands run in reverse order. -/
theorem ThreadVersion.operatorMul_eq_sequential_witness :
    ThreadVersion.operatorMulIn 64 maxSizeInt 3 (ThreadVersion.bands 64 2 3).reverse testA testB =
      Sequential.operatorMul 64 maxSizeInt testA testB :=
  ThreadVersion.operatorMul_eq_sequential 64 maxSizeInt 3 2 2 2 (ThreadVersion.bands 64 2 3).reverse
    testA testB cellsA cellsB testA_Reads testB_Reads (by decide) (List.reverse_perm _)

/-- Counterexample to C2: with a 64-bit size type, the dimension-compatible operands
`2^32 x 1` and `1 x 2^32` make the threaded `operator*` raise `std::length_error`,
while the sequential one of main.cpp, which has no capacity check, builds an empty
buffer (`2^64` wraps to 0) and indexes it out of its size. -/
theorem ThreadVersion.operatorMul_differs_from_sequential :
    tallColumn.Reads 64 (2 ^ 32) 1 zeroCells ∧ wideRow.Reads 64 1 (2 ^ 32) zeroCells ∧
    ThreadVersion.operatorMul 64 maxSizeInt 8 tallColumn wideRow = .error .capacity ∧
    Sequential.operatorMul 64 maxSizeInt tallColumn wideRow = .error .out_of_buffer ∧
    ThreadVersion.operatorMul 64 maxSizeInt 8 tallColumn wideRow ≠
      Sequential.operatorMul 64 maxSizeInt tallColumn wideRow := by
  have h1 : ThreadVersion.operatorMul 64 maxSizeInt 8 tallColumn wideRow = .error .capacity :=
    operatorMulIn_capacity 64 maxSizeInt 8 _ tallColumn wideRow rfl (by decide) (by decide) (by decide)
  have h2 : Sequential.operatorMul 64 maxSizeInt tallColumn wideRow = .error .out_of_buffer :=
    sequential_operatorMul_wrapped 64 maxSizeInt (2 ^ 32) 1 (2 ^ 32) tallColumn wideRow
      zeroCells zeroCells (by decide) (by decide) (by decide) tallColumn_Reads wideRow_Reads
  refine ⟨tallColumn_Reads, wideRow_Reads, h1, h2, ?_⟩
  rw [h1, h2]
  intro h
  cases h

/-- C3 (amended): `operator*` raises the dimension-mismatch failure
(`std::invalid_argument`) whenever `A.cols ≠ B.rows`, whatever the buffers hold, so
before any row is computed.  With `A.cols = B.rows` it succeeds and returns a matrix of
shape `A.rows x B.cols` when `A.rows ≥ 1`, `B.cols ≥ 1` and `A.rows * B.cols` fits the
size type and does not exceed `max_size()`; it raises the zero-dimension failure when
`A.rows = 0` or `B.cols = 0`, the capacity failure when `A.rows * B.cols` exceeds the
size type, and the `std::length_error` of `resize` when `A.rows * B.cols` fits the size
type but exceeds `max_size()`. -/
theorem ThreadVersion.operatorMul_dimension_check [Zero T] [Add T] [Mul T]
    (w max_size W : Nat) (order : List (Nat × Nat)) (A B : Matrix T) :
    (A.cols ≠ B.rows →
      ThreadVersion.operatorMulIn w max_size W order A B = .error .mul_mismatch ∧
      Failure.mul_mismatch.cls = ExceptionClass.invalid_argument) ∧
    (A.cols = B.rows → (A.rows = 0 ∨ B.cols = 0) →
      ThreadVersion.operatorMulIn w max_size W order A B = .error .zero_dimension) ∧
    (A.cols = B.rows → 1 ≤ A.rows → 1 ≤ B.cols → SIZE_MAX w < A.rows * B.cols →
      ThreadVersion.operatorMulIn w max_size W order A B = .error .capacity) ∧
    (A.cols = B.rows → 1 ≤ A.rows → 1 ≤ B.cols → A.rows * B.cols ≤ SIZE_MAX w →
      max_size < A.rows * B.cols →
      ThreadVersion.operatorMulIn w max_size W order A B = .error .resize_length) ∧
    (∀ a b, A.cols = B.rows → 1 ≤ A.rows → 1 ≤ B.cols → A.rows * B.cols ≤ SIZE_MAX w →
      A.rows * B.cols ≤ max_size →
      A.Reads w A.rows A.cols a → B.Reads w B.rows B.cols b →
      order.Perm (ThreadVersion.bands w A.rows W) →
      ∃ r, ThreadVersion.operatorMulIn w max_size W order A B = .ok r ∧
        r.rows = A.rows ∧ r.cols = B.cols) := by
  refine ⟨?_, ?_, ?_, ?_, ?_⟩
  · intro hne
    refine ⟨?_, rfl⟩
    unfold ThreadVersion.operatorMulIn
    rw [if_pos hne]
  · intro h h0
    exact operatorMulIn_zero w max_size W order A B h h0
  · intro h hR hC hcap
    exact operatorMulIn_capacity w max_size W order A B h hR hC hcap
  · intro h hR hC hcap hmax
    exact operatorMulIn_resize w max_size W order A B h hR hC hcap hmax
  · intro a b h hR hC hcap hmax hA hB hperm
    rw [← h] at hB
    obtain ⟨r, hr, hS, _⟩ :=
      operatorMulIn_ok w max_size W A.rows A.cols B.cols order A B a b hR hC hcap hmax
        hA hB hperm
    exact ⟨r, hr, hS.1, hS.2.1⟩

/-- Witness of C3 (amended): the 2 x 2 by 3 x 1 product of the test-suite is rejected,
and the 2 x 2 by 2 x 2 product has shape 2 x 2. -/
theorem ThreadVersion.operatorMul_dimension_check_witness :
    (ThreadVersion.operatorMulIn 64 maxSizeInt 3 (ThreadVersion.bands 64 2 3) testA
        (⟨[1, 2, 3], 3, 1⟩ : Matrix Int) = .error .mul_mismatch ∧
      Failure.mul_mismatch.cls = ExceptionClass.invalid_argument) ∧
    (∃ r, ThreadVersion.operatorMulIn 64 maxSizeInt 3 (ThreadVersion.bands 64 2 3) testA testB = .ok r ∧
      r.rows = testA.rows ∧ r.cols = testB.cols) :=
  ⟨(ThreadVersion.operatorMul_dimension_check 64 maxSizeInt 3 (ThreadVersion.bands 64 2 3) testA
      (⟨[1, 2, 3], 3, 1⟩ : Matrix Int)).1 (by decide),
   (ThreadVersion.operatorMul_dimension_check 64 maxSizeInt 3 (ThreadVersion.bands 64 2 3) testA
      testB).2.2.2.2 cellsA cellsB rfl (by decide) (by decide) (by decide) (by decide)
      testA_Reads testB_Reads (List.Perm.refl _)⟩

/-- Counterexample to C3: the 0 x 0 matrix of the empty literal `{}` times itself has
`A.cols = B.rows`, and the call does not succeed. -/
theorem ThreadVersion.operatorMul_degenerate :
    ThreadVersion.ofLists ([] : List (List Int)) = .ok emptyLiteral ∧
    emptyLiteral.cols = emptyLiteral.rows ∧
    ThreadVersion.operatorMul 64 maxSizeInt 8 emptyLiteral emptyLiteral = .error .zero_dimension ∧
    ThreadVersion.operatorMul 64 maxSizeInt 0 emptyLiteral emptyLiteral = .error .zero_dimension :=
  ⟨rfl, rfl, rfl, rfl⟩

/-! ## The empty literal and out-of-bounds access -/

/-- C11: the nested-literal constructor applied to the empty outer list does not fail;
it returns the matrix with `rows = 0`, `cols = 0` and an empty buffer. -/
theorem ThreadVersion.ofLists_empty :
    ThreadVersion.ofLists ([] : List (List T)) = .ok ⟨[], 0, 0⟩ ∧
    (∀ e, ThreadVersion.ofLists ([] : List (List T)) ≠ .error e) ∧
    (∀ m, ThreadVersion.ofLists ([] : List (List T)) = .ok m →
      m.rows = 0 ∧ m.cols = 0 ∧ m.data = []) := by
  refine ⟨rfl, ?_, ?_⟩
  · intro e h; cases h
  · intro m h; cases h; exact ⟨rfl, rfl, rfl⟩

theorem cls_ne_out_of_range (f : Failure) : f.cls ≠ ExceptionClass.out_of_range := by
  cases f <;> decide

/-- C12 (what the code does): on `Matrix<int> m(2, 2)` no out-of-bounds access raises a
checked out-of-range failure.  With the assertion active `m(2, 0)` and `m(0, 2)` abort
the program; with `NDEBUG` defined, as in the test, `m(0, 2)` returns the element at
buffer index 2, which is cell `(1, 0)`, and `m(2, 0)` indexes the buffer at 4, beyond
its four elements.  No failure of the library is of class `std::out_of_range`. -/
theorem Matrix.elem_out_of_bounds :
    ThreadVersion.createDefault 64 maxSizeInt 2 2 = .ok zeroSquare ∧
    zeroSquare.elem 64 2 0 = .error .assertion ∧
    zeroSquare.elem 64 0 2 = .error .assertion ∧
    Failure.assertion.cls = ExceptionClass.aborted ∧
    zeroSquare.elemRelease 64 0 2 = .ok 0 ∧
    zeroSquare.elemRelease 64 0 2 = zeroSquare.elemRelease 64 1 0 ∧
    zeroSquare.elemRelease 64 2 0 = .error .out_of_buffer ∧
    Failure.out_of_buffer.cls = ExceptionClass.undefined_behaviour ∧
    (∀ f : Failure, f.cls ≠ ExceptionClass.out_of_range) :=
  ⟨rfl, rfl, rfl, rfl, rfl, rfl, rfl, rfl, cls_ne_out_of_range⟩

/-! ## Round trips -/

theorem Matrix.Shaped.reads [Zero T] {w : Nat} {m : Matrix T} {R C : Nat}
    (hm : m.Shaped w R C) : m.Reads w R C (fun i j => (m.data[i * C + j]?).getD 0) := by
  refine ⟨hm.1, hm.2.1, ?_⟩
  intro i j hi hj
  rw [hm.elem_eq hi hj, vecGet_eq_ok]
  have hlen : i * C + j < m.data.length := by
    rw [hm.2.2.1]; exact index_lt hi hj
  simp only [List.getElem?_eq_getElem hlen, Option.getD_some]

/-- C13: for `A` and `B` of one shape `R x C` with `R, C ≥ 1` (their `R * C` elements
within `max_size()`, as the buffer of every operand is), over any additive group (the
integers, or the integers modulo `2 ^ w`), `A + B` succeeds and `(A + B) - B` succeeds
and is `A` itself: same rows, same columns, same buffer. -/
theorem ThreadVersion.add_then_sub [AddGroup T] (w max_size R C : Nat) (A B : Matrix T)
    (hR : 1 ≤ R) (hC : 1 ≤ C) (hA : A.Shaped w R C) (hB : B.Shaped w R C)
    (hmax : R * C ≤ max_size) :
    ∃ s, ThreadVersion.add w max_size A B = .ok s ∧ s.rows = R ∧ s.cols = C ∧
      ThreadVersion.sub w max_size s B = .ok A := by
  have hcap := hA.2.2.2
  obtain ⟨s, hs, hsS, hscell⟩ := add_ok w max_size A B R C _ _ hR hC hcap hmax hA.reads hB.reads
  obtain ⟨r, hr, hrS, hrcell⟩ :=
    sub_ok w max_size s B R C _ _ hR hC hcap hmax ⟨hsS.1, hsS.2.1, hscell⟩ hB.reads
  refine ⟨s, hs, hsS.1, hsS.2.1, ?_⟩
  rw [hr]
  have : r = A := by
    apply hrS.ext hA
    intro i j hi hj
    rw [hrcell i j hi hj, hA.reads.2.2 i j hi hj, add_sub_cancel_right]
  rw [this]

/-- Witness of C13: `({{1, 2}, {3, 4}} + {{5, 6}, {7, 8}}) - {{5, 6}, {7, 8}}`. -/
theorem ThreadVersion.add_then_sub_witness :
    ∃ s, ThreadVersion.add 64 maxSizeInt testA testB = .ok s ∧ s.rows = 2 ∧ s.cols = 2 ∧
      ThreadVersion.sub 64 maxSizeInt s testB = .ok testA :=
  ThreadVersion.add_then_sub 64 maxSizeInt 2 2 testA testB (by decide) (by decide)
    ⟨rfl, rfl, rfl, by decide⟩ ⟨rfl, rfl, rfl, by decide⟩ (by decide)

/-- C14 (amended): for `A` of shape `R x C` with `R, C ≥ 1` (its `R * C` elements
within `max_size()`, as the buffer of every operand is), `A.transpose()` succeeds with
shape `C x R`, and transposing it again succeeds and gives `A` itself: same rows,
same columns, same buffer. -/
theorem ThreadVersion.transpose_transpose [Zero T] (w max_size R C : Nat) (A : Matrix T)
    (hR : 1 ≤ R) (hC : 1 ≤ C) (hA : A.Shaped w R C) (hmax : R * C ≤ max_size) :
    ∃ t, ThreadVersion.transpose w max_size A = .ok t ∧ t.rows = C ∧ t.cols = R ∧
      ThreadVersion.transpose w max_size t = .ok A := by
  have hcap := hA.2.2.2
  have hcap' : C * R ≤ SIZE_MAX w := by rw [Nat.mul_comm]; exact hcap
  have hmax' : C * R ≤ max_size := by rw [Nat.mul_comm]; exact hmax
  obtain ⟨t, ht, htS, htcell⟩ := transpose_ok w max_size A R C _ hR hC hcap hmax hA.reads
  have htR : t.Reads w C R (fun j i => (A.data[i * C + j]?).getD 0) :=
    ⟨htS.1, htS.2.1, fun j i hj hi => htcell i j hi hj⟩
  obtain ⟨r, hr, hrS, hrcell⟩ := transpose_ok w max_size t C R _ hC hR hcap' hmax' htR
  refine ⟨t, ht, htS.1, htS.2.1, ?_⟩
  rw [hr]
  have : r = A := by
    apply hrS.ext hA
    intro i j hi hj
    rw [hrcell j i hj hi, hA.reads.2.2 i j hi hj]
  rw [this]

/-- Witness of C14 (amended): `{{1, 2}, {3, 4}}` transposed twice. -/
theorem ThreadVersion.transpose_transpose_witness :
    ∃ t, ThreadVersion.transpose 64 maxSizeInt testA = .ok t ∧ t.rows = 2 ∧ t.cols = 2 ∧
      ThreadVersion.transpose 64 maxSizeInt t = .ok testA :=
  ThreadVersion.transpose_transpose 64 maxSizeInt 2 2 testA (by decide) (by decide)
    ⟨rfl, rfl, rfl, by decide⟩ (by decide)

/-- Counterexample to C14: the 0 x 0 matrix of the empty literal `{}` is obtained from a
constructor, and no double transpose of it succeeds: the first `transpose()` already
raises the zero-dimension failure. -/
theorem ThreadVersion.transpose_twice_degenerate :
    ThreadVersion.ofLists ([] : List (List Int)) = .ok emptyLiteral ∧
    ¬ ∃ t, ThreadVersion.transpose 64 maxSizeInt emptyLiteral = .ok t ∧
      ThreadVersion.transpose 64 maxSizeInt t = .ok emptyLiteral := by
  refine ⟨rfl, ?_⟩
  rintro ⟨t, ht, _⟩
  have h : ThreadVersion.transpose 64 maxSizeInt emptyLiteral = .error .zero_dimension := rfl
  rw [h] at ht
  cases ht

/-! ## Scalars and matrix products -/

theorem dotSum_scale_left [CommRing T] (a b : Nat → Nat → T) (s : T) (K i j : Nat) :
    dotSum (fun i k => a i k * s) b K i j = dotSum a b K i j * s := by
  unfold dotSum
  induction K with
  | zero => simp
  | succ K ih =>
    rw [List.range_succ, List.foldl_append, List.foldl_append]
    simp only [List.foldl_cons, List.foldl_nil]
    rw [ih]
    ring

theorem dotSum_scale_right [CommRing T] (a b : Nat → Nat → T) (s : T) (K i j : Nat) :
    dotSum a (fun k j => b k j * s) K i j = dotSum a b K i j * s := by
  unfold dotSum
  induction K with
  | zero => simp
  | succ K ih =>
    rw [List.range_succ, List.foldl_append, List.foldl_append]
    simp only [List.foldl_cons, List.foldl_nil]
    rw [ih]
    ring

theorem scale_zero_dimension [Zero T] [Mul T] (w max_size : Nat) (A : Matrix T) (s : T)
    (h0 : A.rows = 0 ∨ A.cols = 0) : ThreadVersion.scale w max_size A s = .error .zero_dimension := by
  simp only [ThreadVersion.scale, ThreadVersion.createDefault,
    ThreadVersion.create_zero w max_size A.rows A.cols (0 : T) h0]

/-- C15: for `A` of shape `R x K` and `B` of shape `K x C` (each either with both
dimensions at least 1 or of shape 0 x 0, its elements within the size type and within
`max_size()`, as every constructed matrix is) over a commutative ring such as the
integers, and every scalar `s`, the calls `(A * s) * B`, `A * (B * s)` and `(A * B) * s`
have one and the same outcome, whatever the worker count and the order of the bands;
when `R, C ≥ 1` and `R * C` fits the size type and `max_size()` that outcome is a matrix
of shape `R x C` whose cell `(i, j)` is the dot product of row `i` of `A` and column `j`
of `B`, times `s`. -/
theorem ThreadVersion.scale_mul_assoc [CommRing T] (w max_size W R K C : Nat)
    (o1 o2 o3 : List (Nat × Nat)) (A B : Matrix T) (a b : Nat → Nat → T) (s : T)
    (hA : A.Reads w R K a) (hB : B.Reads w K C b)
    (hcapA : R * K ≤ SIZE_MAX w) (hcapB : K * C ≤ SIZE_MAX w)
    (hmaxA : R * K ≤ max_size) (hmaxB : K * C ≤ max_size)
    (hAo : R = 0 ↔ K = 0) (hBo : K = 0 ↔ C = 0)
    (h1 : o1.Perm (ThreadVersion.bands w R W)) (h2 : o2.Perm (ThreadVersion.bands w R W))
    (h3 : o3.Perm (ThreadVersion.bands w R W)) :
    (ThreadVersion.scale w max_size A s).bind
        (fun As => ThreadVersion.operatorMulIn w max_size W o1 As B) =
      (ThreadVersion.scale w max_size B s).bind
        (fun Bs => ThreadVersion.operatorMulIn w max_size W o2 A Bs) ∧
    (ThreadVersion.scale w max_size B s).bind
        (fun Bs => ThreadVersion.operatorMulIn w max_size W o2 A Bs) =
      (ThreadVersion.operatorMulIn w max_size W o3 A B).bind
        (fun AB => ThreadVersion.scale w max_size AB s) ∧
    (1 ≤ R → 1 ≤ C → R * C ≤ SIZE_MAX w → R * C ≤ max_size →
      ∃ r, (ThreadVersion.operatorMulIn w max_size W o3 A B).bind
          (fun AB => ThreadVersion.scale w max_size AB s) = .ok r ∧
        r.rows = R ∧ r.cols = C ∧
        ∀ i j, i < R → j < C → r.elem w i j = .ok (dotSum a b K i j * s)) := by
  have hinner : A.cols = B.rows := hA.2.1.trans hB.1.symm
  by_cases hK : K = 0
  · have hR0 : R = 0 := hAo.2 hK
    have hsA : ThreadVersion.scale w max_size A s = .error .zero_dimension :=
      scale_zero_dimension w max_size A s (Or.inl (hA.1.trans hR0))
    have hsB : ThreadVersion.scale w max_size B s = .error .zero_dimension :=
      scale_zero_dimension w max_size B s (Or.inl (hB.1.trans hK))
    have hm : ThreadVersion.operatorMulIn w max_size W o3 A B = .error .zero_dimension :=
      operatorMulIn_zero w max_size W o3 A B hinner (Or.inl (hA.1.trans hR0))
    rw [hsA, hsB, hm]
    exact ⟨rfl, rfl, fun h => by omega⟩
  · have hK1 : 1 ≤ K := by omega
    have hR : 1 ≤ R := by
      have : R ≠ 0 := fun h => hK (hAo.1 h)
      omega
    have hC : 1 ≤ C := by
      have : C ≠ 0 := fun h => hK (hBo.2 h)
      omega
    obtain ⟨As, hAs, hAsS, hAscell⟩ := scale_ok w max_size A s R K a hR hK1 hcapA hmaxA hA
    obtain ⟨Bs, hBs, hBsS, hBscell⟩ := scale_ok w max_size B s K C b hK1 hC hcapB hmaxB hB
    have hAsR : As.Reads w R K (fun i k => a i k * s) := ⟨hAsS.1, hAsS.2.1, hAscell⟩
    have hBsR : Bs.Reads w K C (fun k j => b k j * s) := ⟨hBsS.1, hBsS.2.1, hBscell⟩
    rw [hAs, hBs]
    by_cases hcap : R * C ≤ SIZE_MAX w
    · by_cases hmax : R * C ≤ max_size
      · obtain ⟨r1, hr1, hS1, hcell1⟩ :=
          operatorMulIn_ok w max_size W R K C o1 As B _ b hR hC hcap hmax hAsR hB h1
        obtain ⟨r2, hr2, hS2, hcell2⟩ :=
          operatorMulIn_ok w max_size W R K C o2 A Bs a _ hR hC hcap hmax hA hBsR h2
        obtain ⟨m3, hm3, hS3, hcell3⟩ :=
          operatorMulIn_ok w max_size W R K C o3 A B a b hR hC hcap hmax hA hB h3
        obtain ⟨r3, hr3, hS3', hcell3'⟩ :=
          scale_ok w max_size m3 s R C (dotSum a b K) hR hC hcap hmax
            ⟨hS3.1, hS3.2.1, hcell3⟩
        have e12 : r1 = r2 := hS1.ext hS2 (fun i j hi hj => by
          rw [hcell1 i j hi hj, hcell2 i j hi hj, dotSum_scale_left, dotSum_scale_right])
        have e23 : r2 = r3 := hS2.ext hS3' (fun i j hi hj => by
          rw [hcell2 i j hi hj, hcell3' i j hi hj, dotSum_scale_right])
        simp only [Except.bind, hr1, hr2, hm3, hr3]
        refine ⟨by rw [e12], by rw [e23],
          fun _ _ _ _ => ⟨r3, rfl, hS3'.1, hS3'.2.1, hcell3'⟩⟩
      · have hmax' : max_size < R * C := by omega
        have c1 : ThreadVersion.operatorMulIn w max_size W o1 As B = .error .resize_length :=
          operatorMulIn_resize w max_size W o1 As B (hAsS.2.1.trans hB.1.symm)
            (by rw [hAsS.1]; exact hR) (by rw [hB.2.1]; exact hC)
            (by rw [hAsS.1, hB.2.1]; exact hcap) (by rw [hAsS.1, hB.2.1]; exact hmax')
        have c2 : ThreadVersion.operatorMulIn w max_size W o2 A Bs = .error .resize_length :=
          operatorMulIn_resize w max_size W o2 A Bs (hA.2.1.trans hBsS.1.symm)
            (by rw [hA.1]; exact hR) (by rw [hBsS.2.1]; exact hC)
            (by rw [hA.1, hBsS.2.1]; exact hcap) (by rw [hA.1, hBsS.2.1]; exact hmax')
        have c3 : ThreadVersion.operatorMulIn w max_size W o3 A B = .error .resize_length :=
          operatorMulIn_resize w max_size W o3 A B hinner
            (by rw [hA.1]; exact hR) (by rw [hB.2.1]; exact hC)
            (by rw [hA.1, hB.2.1]; exact hcap) (by rw [hA.1, hB.2.1]; exact hmax')
        simp only [Except.bind, c1, c2, c3]
        exact ⟨trivial, trivial, fun _ _ _ h => absurd h hmax⟩
    · have hcap' : SIZE_MAX w < R * C := by omega
      have c1 : ThreadVersion.operatorMulIn w max_size W o1 As B = .error .capacity :=
        operatorMulIn_capacity w max_size W o1 As B (hAsS.2.1.trans hB.1.symm)
          (by rw [hAsS.1]; exact hR) (by rw [hB.2.1]; exact hC)
          (by rw [hAsS.1, hB.2.1]; exact hcap')
      have c2 : ThreadVersion.operatorMulIn w max_size W o2 A Bs = .error .capacity :=
        operatorMulIn_capacity w max_size W o2 A Bs (hA.2.1.trans hBsS.1.symm)
          (by rw [hA.1]; exact hR) (by rw [hBsS.2.1]; exact hC)
          (by rw [hA.1, hBsS.2.1]; exact hcap')
      have c3 : ThreadVersion.operatorMulIn w max_size W o3 A B = .error .capacity :=
        operatorMulIn_capacity w max_size W o3 A B hinner
          (by rw [hA.1]; exact hR) (by rw [hB.2.1]; exact hC)
          (by rw [hA.1, hB.2.1]; exact hcap')
      simp only [Except.bind, c1, c2, c3]
      exact ⟨trivial, trivial, fun _ _ h _ => absurd h hcap⟩

/-- Witness of C15: `{{1, 2}, {3, 4}}`, `{{5, 6}, {7, 8}}` and the scalar 3, two workers. -/
theorem ThreadVersion.scale_mul_assoc_witness :
    (ThreadVersion.scale 64 maxSizeInt testA 3).bind
        (fun As => ThreadVersion.operatorMulIn 64 maxSizeInt 2 (ThreadVersion.bands 64 2 2) As testB) =
      (ThreadVersion.scale 64 maxSizeInt testB 3).bind
        (fun Bs => ThreadVersion.operatorMulIn 64 maxSizeInt 2 (ThreadVersion.bands 64 2 2) testA Bs) ∧
    (ThreadVersion.scale 64 maxSizeInt testB 3).bind
        (fun Bs => ThreadVersion.operatorMulIn 64 maxSizeInt 2 (ThreadVersion.bands 64 2 2) testA Bs) =
      (ThreadVersion.operatorMulIn 64 maxSizeInt 2 (ThreadVersion.bands 64 2 2) testA testB).bind
        (fun AB => ThreadVersion.scale 64 maxSizeInt AB 3) ∧
    (ThreadVersion.operatorMulIn 64 maxSizeInt 2 (ThreadVersion.bands 64 2 2) testA testB).bind
        (fun AB => ThreadVersion.scale 64 maxSizeInt AB 3) = .ok ⟨[57, 66, 129, 150], 2, 2⟩ :=
  have h := ThreadVersion.scale_mul_assoc 64 maxSizeInt 2 2 2 2 (ThreadVersion.bands 64 2 2)
    (ThreadVersion.bands 64 2 2) (ThreadVersion.bands 64 2 2) testA testB cellsA cellsB 3
    testA_Reads testB_Reads (by decide) (by decide) (by decide) (by decide)
    (by decide) (by decide) (List.Perm.refl _) (List.Perm.refl _) (List.Perm.refl _)
  ⟨h.1, h.2.1, rfl⟩

theorem dotSum_ones_twos [Semiring T] (N i j : Nat) :
    dotSum (fun _ _ => (1 : T)) (fun _ _ => (2 : T)) N i j = 2 * (N : T) := by
  unfold dotSum
  induction N with
  | zero => simp
  | succ N ih =>
    rw [List.range_succ, List.foldl_append]
    simp only [List.foldl_cons, List.foldl_nil]
    rw [ih, Nat.cast_succ, mul_add, one_mul, mul_one]

theorem create_ok_inv {w max_size R C : Nat} {v : T} {m : Matrix T}
    (h : ThreadVersion.create w max_size R C v = .ok m) :
    1 ≤ R ∧ 1 ≤ C ∧ R * C ≤ SIZE_MAX w ∧ m = ⟨List.replicate (R * C) v, R, C⟩ := by
  rcases ThreadVersion.create_cases w max_size R C v with
    ⟨_, hc⟩ | ⟨_, hc⟩ | ⟨_, hc⟩ | ⟨⟨hR, hC, hcap, _⟩, hc⟩
  · rw [hc] at h; cases h
  · rw [hc] at h; cases h
  · rw [hc] at h; cases h
  · rw [hc] at h
    injection h with h
    exact ⟨hR, hC, hcap, h.symm⟩

theorem create_ok_max {w max_size R C : Nat} {v : T} {m : Matrix T}
    (h : ThreadVersion.create w max_size R C v = .ok m) : R * C ≤ max_size := by
  rcases ThreadVersion.create_cases w max_size R C v with
    ⟨_, hc⟩ | ⟨_, hc⟩ | ⟨_, hc⟩ | ⟨⟨_, _, _, hmax⟩, _⟩
  · rw [hc] at h; cases h
  · rw [hc] at h; cases h
  · rw [hc] at h; cases h
  · exact hmax

/-- C16: over exact arithmetic (any semiring, such as the integers), when
`Matrix(N, N, 1)` and `Matrix(N, N, 2)` are built, their product is returned, whatever
the worker count and the order of the bands, with `N` rows and `N` columns, and every
one of its cells equals `2 * N`. -/
theorem ThreadVersion.ones_times_twos [Semiring T] (w max_size W N : Nat) (order : List (Nat × Nat))
    (m1 m2 : Matrix T) (h1 : ThreadVersion.create w max_size N N (1 : T) = .ok m1)
    (h2 : ThreadVersion.create w max_size N N (2 : T) = .ok m2)
    (hperm : order.Perm (ThreadVersion.bands w N W)) :
    ∃ r, ThreadVersion.operatorMulIn w max_size W order m1 m2 = .ok r ∧ r.rows = N ∧ r.cols = N ∧
      ∀ i j, i < N → j < N → r.elem w i j = .ok (2 * (N : T)) := by
  obtain ⟨hN, _, hcap, e1⟩ := create_ok_inv h1
  obtain ⟨_, _, _, e2⟩ := create_ok_inv h2
  have hmax : N * N ≤ max_size := create_ok_max h1
  have hR1 : m1.Reads w N N (fun _ _ => (1 : T)) := by
    rw [e1]; exact ⟨rfl, rfl, fun i j hi hj => replicate_elem w N N 1 hcap i j hi hj⟩
  have hR2 : m2.Reads w N N (fun _ _ => (2 : T)) := by
    rw [e2]; exact ⟨rfl, rfl, fun i j hi hj => replicate_elem w N N 2 hcap i j hi hj⟩
  obtain ⟨r, hr, hS, hcell⟩ :=
    operatorMulIn_ok w max_size W N N N order m1 m2 _ _ hN hN hcap hmax hR1 hR2 hperm
  refine ⟨r, hr, hS.1, hS.2.1, ?_⟩
  intro i j hi hj
  rw [hcell i j hi hj, dotSum_ones_twos]

/-- Witness of C16: `N = 3` with a 64-bit size type and four workers. -/
theorem ThreadVersion.ones_times_twos_witness :
    ∃ r, ThreadVersion.operatorMulIn 64 maxSizeInt 4 (ThreadVersion.bands 64 3 4)
        (⟨List.replicate (3 * 3) 1, 3, 3⟩ : Matrix Int) ⟨List.replicate (3 * 3) 2, 3, 3⟩ =
          .ok r ∧
      r.rows = 3 ∧ r.cols = 3 ∧
      ∀ i j, i < 3 → j < 3 → r.elem 64 i j = .ok (2 * ((3 : Nat) : Int)) :=
  ThreadVersion.ones_times_twos 64 maxSizeInt 4 3 (ThreadVersion.bands 64 3 4) _ _ rfl rfl
    (List.Perm.refl _)

/-! ## What every returned matrix looks like -/

theorem loopFrom_preserves {σ : Type} (body : Nat → σ → Except Failure σ) (Q : σ → Prop)
    (hbody : ∀ k t t', Q t → body k t = .ok t' → Q t') :
    ∀ (n i : Nat) (s t : σ), Q s → loopFrom body n i s = .ok t → Q t := by
  intro n
  induction n with
  | zero =>
    intro i s t hQ h
    simp only [loopFrom] at h
    injection h with h
    rw [← h]; exact hQ
  | succ n ih =>
    intro i s t hQ h
    simp only [loopFrom] at h
    cases hb : body i s with
    | ok s' =>
      rw [hb] at h
      exact ih _ _ _ (hbody _ _ _ hQ hb) h
    | error e => rw [hb] at h; cases h

theorem forRange_preserves {σ : Type} (body : Nat → σ → Except Failure σ) (Q : σ → Prop)
    (hbody : ∀ k t t', Q t → body k t = .ok t' → Q t')
    (start stop : Nat) (s t : σ) (hQ : Q s) (h : forRange start stop body s = .ok t) : Q t :=
  loopFrom_preserves body Q hbody _ _ _ _ hQ h

theorem vecSet_length {v d : List T} {i : Nat} {x : T} (h : vecSet v i x = .ok d) :
    d.length = v.length := by
  unfold vecSet at h
  split at h
  · injection h with h; rw [← h]; simp
  · cases h

theorem assign_shape {w : Nat} {m m' : Matrix T} {i j : Nat} {x : T}
    (h : m.assign w i j x = .ok m') :
    m'.rows = m.rows ∧ m'.cols = m.cols ∧ m'.data.length = m.data.length := by
  unfold Matrix.assign at h
  split at h
  · cases hv : vecSet m.data ((i * m.cols + j) % 2 ^ w) x with
    | ok d =>
      rw [hv] at h
      injection h with h
      rw [← h]
      exact ⟨rfl, rfl, vecSet_length hv⟩
    | error e => rw [hv] at h; cases h
  · cases h

theorem add_returns [Zero T] [Add T] {w max_size : Nat} {A B r : Matrix T}
    (h : ThreadVersion.add w max_size A B = .ok r) :
    1 ≤ A.rows ∧ 1 ≤ A.cols ∧ A.rows * A.cols ≤ SIZE_MAX w ∧
      r.rows = A.rows ∧ r.cols = A.cols ∧ r.data.length = A.rows * A.cols := by
  unfold ThreadVersion.add at h
  split at h
  · cases h
  · unfold ThreadVersion.createDefault at h
    cases hc : ThreadVersion.create w max_size A.rows A.cols (0 : T) with
    | error e => rw [hc] at h; cases h
    | ok res =>
      rw [hc] at h
      obtain ⟨hR, hC, hcap, e⟩ := create_ok_inv hc
      refine ⟨hR, hC, hcap, ?_⟩
      refine forRange_preserves _
        (fun t => t.rows = A.rows ∧ t.cols = A.cols ∧ t.data.length = A.rows * A.cols)
        ?_ _ _ _ _ (by rw [e]; exact ⟨rfl, rfl, by simp⟩) h
      intro k t t' hQ hb
      cases h1 : vecGet A.data k with
      | error e1 => simp only [h1] at hb; cases hb
      | ok x =>
        cases h2 : vecGet B.data k with
        | error e2 => simp only [h1, h2] at hb; cases hb
        | ok y =>
          simp only [h1, h2] at hb
          cases hv : vecSet t.data k (x + y) with
          | error e3 => rw [hv] at hb; cases hb
          | ok d =>
            rw [hv] at hb
            injection hb with hb
            rw [← hb]
            exact ⟨hQ.1, hQ.2.1, (vecSet_length hv).trans hQ.2.2⟩

theorem sub_returns [Zero T] [Sub T] {w max_size : Nat} {A B r : Matrix T}
    (h : ThreadVersion.sub w max_size A B = .ok r) :
    1 ≤ A.rows ∧ 1 ≤ A.cols ∧ A.rows * A.cols ≤ SIZE_MAX w ∧
      r.rows = A.rows ∧ r.cols = A.cols ∧ r.data.length = A.rows * A.cols := by
  unfold ThreadVersion.sub at h
  split at h
  · cases h
  · unfold ThreadVersion.createDefault at h
    cases hc : ThreadVersion.create w max_size A.rows A.cols (0 : T) with
    | error e => rw [hc] at h; cases h
    | ok res =>
      rw [hc] at h
      obtain ⟨hR, hC, hcap, e⟩ := create_ok_inv hc
      refine ⟨hR, hC, hcap, ?_⟩
      refine forRange_preserves _
        (fun t => t.rows = A.rows ∧ t.cols = A.cols ∧ t.data.length = A.rows * A.cols)
        ?_ _ _ _ _ (by rw [e]; exact ⟨rfl, rfl, by simp⟩) h
      intro k t t' hQ hb
      cases h1 : vecGet A.data k with
      | error e1 => simp only [h1] at hb; cases hb
      | ok x =>
        cases h2 : vecGet B.data k with
        | error e2 => simp only [h1, h2] at hb; cases hb
        | ok y =>
          simp only [h1, h2] at hb
          cases hv : vecSet t.data k (x - y) with
          | error e3 => rw [hv] at hb; cases hb
          | ok d =>
            rw [hv] at hb
            injection hb with hb
            rw [← hb]
            exact ⟨hQ.1, hQ.2.1, (vecSet_length hv).trans hQ.2.2⟩

theorem scale_returns [Zero T] [Mul T] {w max_size : Nat} {A r : Matrix T} {s : T}
    (h : ThreadVersion.scale w max_size A s = .ok r) :
    1 ≤ A.rows ∧ 1 ≤ A.cols ∧ A.rows * A.cols ≤ SIZE_MAX w ∧
      r.rows = A.rows ∧ r.cols = A.cols ∧ r.data.length = A.rows * A.cols := by
  unfold ThreadVersion.scale ThreadVersion.createDefault at h
  cases hc : ThreadVersion.create w max_size A.rows A.cols (0 : T) with
  | error e => rw [hc] at h; cases h
  | ok res =>
    rw [hc] at h
    obtain ⟨hR, hC, hcap, e⟩ := create_ok_inv hc
    refine ⟨hR, hC, hcap, ?_⟩
    refine forRange_preserves _
      (fun t => t.rows = A.rows ∧ t.cols = A.cols ∧ t.data.length = A.rows * A.cols)
      ?_ _ _ _ _ (by rw [e]; exact ⟨rfl, rfl, by simp⟩) h
    intro k t t' hQ hb
    cases h1 : vecGet A.data k with
    | error e1 => simp only [h1] at hb; cases hb
    | ok x =>
      simp only [h1] at hb
      cases hv : vecSet t.data k (x * s) with
      | error e3 => rw [hv] at hb; cases hb
      | ok d =>
        rw [hv] at hb
        injection hb with hb
        rw [← hb]
        exact ⟨hQ.1, hQ.2.1, (vecSet_length hv).trans hQ.2.2⟩

theorem transpose_returns [Zero T] {w max_size : Nat} {A r : Matrix T}
    (h : ThreadVersion.transpose w max_size A = .ok r) :
    1 ≤ A.rows ∧ 1 ≤ A.cols ∧ A.cols * A.rows ≤ SIZE_MAX w ∧
      r.rows = A.cols ∧ r.cols = A.rows ∧ r.data.length = A.cols * A.rows := by
  unfold ThreadVersion.transpose ThreadVersion.createDefault at h
  cases hc : ThreadVersion.create w max_size A.cols A.rows (0 : T) with
  | error e => rw [hc] at h; cases h
  | ok res =>
    rw [hc] at h
    obtain ⟨hC, hR, hcap, e⟩ := create_ok_inv hc
    refine ⟨hR, hC, hcap, ?_⟩
    refine forRange_preserves _
      (fun t => t.rows = A.cols ∧ t.cols = A.rows ∧ t.data.length = A.cols * A.rows)
      ?_ _ _ _ _ (by rw [e]; exact ⟨rfl, rfl, by simp⟩) h
    intro i t t' hQ hb
    refine forRange_preserves _
      (fun t => t.rows = A.cols ∧ t.cols = A.rows ∧ t.data.length = A.cols * A.rows)
      ?_ _ _ _ _ hQ hb
    intro j u u' hQu hbu
    cases hx : A.elem w i j with
    | error e1 => simp only [hx] at hbu; cases hbu
    | ok x =>
      simp only [hx] at hbu
      obtain ⟨p1, p2, p3⟩ := assign_shape hbu
      exact ⟨p1.trans hQu.1, p2.trans hQu.2.1, p3.trans hQu.2.2⟩

theorem multiply_rows_returns [Zero T] [Add T] [Mul T] {w : Nat} {A res B r : Matrix T}
    {start_row end_row : Nat}
    (h : ThreadVersion.multiply_rows w A res B start_row end_row = .ok r) :
    r.rows = res.rows ∧ r.cols = res.cols ∧ r.data.length = res.data.length := by
  unfold ThreadVersion.multiply_rows at h
  refine forRange_preserves _
    (fun t => t.rows = res.rows ∧ t.cols = res.cols ∧ t.data.length = res.data.length)
    ?_ _ _ _ _ ⟨rfl, rfl, rfl⟩ h
  intro i t t' hQ hb
  refine forRange_preserves _
    (fun t => t.rows = res.rows ∧ t.cols = res.cols ∧ t.data.length = res.data.length)
    ?_ _ _ _ _ hQ hb
  intro j u u' hQu hbu
  cases hx : ThreadVersion.dotLoop w A B i j with
  | error e1 => simp only [hx] at hbu; cases hbu
  | ok x =>
    simp only [hx] at hbu
    obtain ⟨p1, p2, p3⟩ := assign_shape hbu
    exact ⟨p1.trans hQu.1, p2.trans hQu.2.1, p3.trans hQu.2.2⟩

theorem runThreads_returns [Zero T] [Add T] [Mul T] {w : Nat} {A B : Matrix T} :
    ∀ (order : List (Nat × Nat)) (res r : Matrix T),
      ThreadVersion.runThreads w A B order res = .ok r →
      r.rows = res.rows ∧ r.cols = res.cols ∧ r.data.length = res.data.length := by
  intro order
  induction order with
  | nil =>
    intro res r h
    simp only [ThreadVersion.runThreads] at h
    injection h with h
    rw [← h]; exact ⟨rfl, rfl, rfl⟩
  | cons p rest ih =>
    intro res r h
    obtain ⟨s, e⟩ := p
    simp only [ThreadVersion.runThreads, threadBody_eq] at h
    cases hb : ThreadVersion.multiply_rows w A res B s e with
    | error e1 => rw [hb] at h; cases h
    | ok r1 =>
      rw [hb] at h
      obtain ⟨p1, p2, p3⟩ := multiply_rows_returns hb
      obtain ⟨q1, q2, q3⟩ := ih r1 r h
      exact ⟨q1.trans p1, q2.trans p2, q3.trans p3⟩

theorem operatorMulIn_returns [Zero T] [Add T] [Mul T] {w max_size W : Nat}
    {order : List (Nat × Nat)} {A B r : Matrix T}
    (h : ThreadVersion.operatorMulIn w max_size W order A B = .ok r) :
    1 ≤ A.rows ∧ 1 ≤ B.cols ∧ A.rows * B.cols ≤ SIZE_MAX w ∧
      r.rows = A.rows ∧ r.cols = B.cols ∧ r.data.length = A.rows * B.cols := by
  unfold ThreadVersion.operatorMulIn ThreadVersion.createDefault at h
  split at h
  · cases h
  · cases hc : ThreadVersion.create w max_size A.rows B.cols (0 : T) with
    | error e => rw [hc] at h; cases h
    | ok res =>
      rw [hc] at h
      obtain ⟨hR, hC, hcap, e⟩ := create_ok_inv hc
      have hres : res.rows = A.rows ∧ res.cols = B.cols ∧
          res.data.length = A.rows * B.cols := by
        rw [e]; exact ⟨rfl, rfl, by simp⟩
      refine ⟨hR, hC, hcap, ?_⟩
      simp only at h
      split at h
      · obtain ⟨p1, p2, p3⟩ := multiply_rows_returns h
        exact ⟨p1.trans hres.1, p2.trans hres.2.1, p3.trans hres.2.2⟩
      · obtain ⟨p1, p2, p3⟩ := runThreads_returns order res r h
        exact ⟨p1.trans hres.1, p2.trans hres.2.1, p3.trans hres.2.2⟩

theorem ofLists_returns {L : List (List T)} {m : Matrix T}
    (h : ThreadVersion.ofLists L = .ok m) :
    m.data.length = m.rows * m.cols ∧ (L ≠ [] → 1 ≤ m.rows ∧ 1 ≤ m.cols) := by
  cases L with
  | nil =>
    simp only [ThreadVersion.ofLists] at h
    injection h with h
    rw [← h]
    exact ⟨rfl, fun hne => absurd rfl hne⟩
  | cons first rest =>
    simp only [ThreadVersion.ofLists] at h
    split at h
    · cases h
    · next h0 =>
      by_cases hall : ∀ r ∈ first :: rest, r.length = first.length
      · rw [appendRows_ok _ _ [] hall] at h
        injection h with h
        rw [← h]
        refine ⟨?_, fun _ => ⟨?_, ?_⟩⟩
        · simp only [List.nil_append]
          exact flatten_length _ _ hall
        · simp
        · show 1 ≤ first.length
          omega
      · have hr : ∃ r ∈ first :: rest, r.length ≠ first.length := by
          by_contra hn
          exact hall (fun r hr => by
            by_contra hne
            exact hn ⟨r, hr, hne⟩)
        rw [appendRows_ragged _ _ [] hr] at h
        cases h

/-- C17: buffer-length invariant.  Every matrix returned by the dimensioned
constructor, by the nested-literal constructor, by `operator+`, `operator-`, the scalar
`operator*`, the matrix `operator*` (any worker count, any order of the bands) or by
`transpose`, whatever the operands, has a buffer of exactly `rows * cols` elements. -/
theorem ThreadVersion.buffer_length_invariant [Zero T] [Add T] [Sub T] [Mul T]
    (w max_size W : Nat) (order : List (Nat × Nat)) (rows cols : Nat) (fill s : T)
    (L : List (List T)) (A B r : Matrix T) :
    (ThreadVersion.create w max_size rows cols fill = .ok r → r.data.length = r.rows * r.cols) ∧
    (ThreadVersion.ofLists L = .ok r → r.data.length = r.rows * r.cols) ∧
    (ThreadVersion.add w max_size A B = .ok r → r.data.length = r.rows * r.cols) ∧
    (ThreadVersion.sub w max_size A B = .ok r → r.data.length = r.rows * r.cols) ∧
    (ThreadVersion.scale w max_size A s = .ok r → r.data.length = r.rows * r.cols) ∧
    (ThreadVersion.operatorMulIn w max_size W order A B = .ok r →
      r.data.length = r.rows * r.cols) ∧
    (ThreadVersion.transpose w max_size A = .ok r → r.data.length = r.rows * r.cols) := by
  refine ⟨?_, ?_, ?_, ?_, ?_, ?_, ?_⟩
  · intro h
    obtain ⟨_, _, _, e⟩ := create_ok_inv h
    rw [e]; simp
  · intro h; exact (ofLists_returns h).1
  · intro h
    obtain ⟨_, _, _, h1, h2, h3⟩ := add_returns h
    rw [h1, h2, h3]
  · intro h
    obtain ⟨_, _, _, h1, h2, h3⟩ := sub_returns h
    rw [h1, h2, h3]
  · intro h
    obtain ⟨_, _, _, h1, h2, h3⟩ := scale_returns h
    rw [h1, h2, h3]
  · intro h
    obtain ⟨_, _, _, h1, h2, h3⟩ := operatorMulIn_returns h
    rw [h1, h2, h3]
  · intro h
    obtain ⟨_, _, _, h1, h2, h3⟩ := transpose_returns h
    rw [h1, h2, h3]

/-- Witness of C17: the sum and the product of `{{1, 2}, {3, 4}}` and
`{{5, 6}, {7, 8}}`, and the transpose of a 2 x 3 matrix. -/
theorem ThreadVersion.buffer_length_invariant_witness :
    (∃ r, ThreadVersion.add 64 maxSizeInt testA testB = .ok r ∧ r.data.length = r.rows * r.cols) ∧
    (∃ r, ThreadVersion.operatorMulIn 64 maxSizeInt 3 (ThreadVersion.bands 64 2 3) testA testB = .ok r ∧
      r.data.length = r.rows * r.cols) ∧
    (∃ r, ThreadVersion.transpose 64 maxSizeInt (⟨[1, 2, 3, 4, 5, 6], 2, 3⟩ : Matrix Int) = .ok r ∧
      r.data.length = r.rows * r.cols) :=
  ⟨⟨⟨[6, 8, 10, 12], 2, 2⟩, rfl,
      (ThreadVersion.buffer_length_invariant 64 maxSizeInt 3 (ThreadVersion.bands 64 2 3) 2 2 (0 : Int) 2
        [[1, 2], [3, 4]] testA testB ⟨[6, 8, 10, 12], 2, 2⟩).2.2.1 rfl⟩,
    ⟨⟨[19, 22, 43, 50], 2, 2⟩, rfl,
      (ThreadVersion.buffer_length_invariant 64 maxSizeInt 3 (ThreadVersion.bands 64 2 3) 2 2 (0 : Int) 2
        [[1, 2], [3, 4]] testA testB ⟨[19, 22, 43, 50], 2, 2⟩).2.2.2.2.2.1 rfl⟩,
    ⟨⟨[1, 4, 2, 5, 3, 6], 3, 2⟩, rfl,
      (ThreadVersion.buffer_length_invariant 64 maxSizeInt 3 (ThreadVersion.bands 64 2 3) 2 2 (0 : Int) 2
        [[1, 2], [3, 4]] ⟨[1, 2, 3, 4, 5, 6], 2, 3⟩ testB
        ⟨[1, 4, 2, 5, 3, 6], 3, 2⟩).2.2.2.2.2.2 rfl⟩⟩

/-- C18 (amended): positive-dimension invariant.  Every matrix returned by the
dimensioned constructor, by the nested-literal constructor on a non-empty literal, by
`operator+`, `operator-`, the scalar `operator*`, the matrix `operator*` or by
`transpose`, whatever the operands, has `rows ≥ 1` and `cols ≥ 1`. -/
theorem ThreadVersion.positive_dimensions [Zero T] [Add T] [Sub T] [Mul T]
    (w max_size W : Nat) (order : List (Nat × Nat)) (rows cols : Nat) (fill s : T)
    (L : List (List T)) (A B r : Matrix T) :
    (ThreadVersion.create w max_size rows cols fill = .ok r → 1 ≤ r.rows ∧ 1 ≤ r.cols) ∧
    (L ≠ [] → ThreadVersion.ofLists L = .ok r → 1 ≤ r.rows ∧ 1 ≤ r.cols) ∧
    (ThreadVersion.add w max_size A B = .ok r → 1 ≤ r.rows ∧ 1 ≤ r.cols) ∧
    (ThreadVersion.sub w max_size A B = .ok r → 1 ≤ r.rows ∧ 1 ≤ r.cols) ∧
    (ThreadVersion.scale w max_size A s = .ok r → 1 ≤ r.rows ∧ 1 ≤ r.cols) ∧
    (ThreadVersion.operatorMulIn w max_size W order A B = .ok r → 1 ≤ r.rows ∧ 1 ≤ r.cols) ∧
    (ThreadVersion.transpose w max_size A = .ok r → 1 ≤ r.rows ∧ 1 ≤ r.cols) := by
  refine ⟨?_, ?_, ?_, ?_, ?_, ?_, ?_⟩
  · intro h
    obtain ⟨hR, hC, _, e⟩ := create_ok_inv h
    rw [e]; exact ⟨hR, hC⟩
  · intro hne h; exact (ofLists_returns h).2 hne
  · intro h
    obtain ⟨hR, hC, _, h1, h2, _⟩ := add_returns h
    rw [h1, h2]; exact ⟨hR, hC⟩
  · intro h
    obtain ⟨hR, hC, _, h1, h2, _⟩ := sub_returns h
    rw [h1, h2]; exact ⟨hR, hC⟩
  · intro h
    obtain ⟨hR, hC, _, h1, h2, _⟩ := scale_returns h
    rw [h1, h2]; exact ⟨hR, hC⟩
  · intro h
    obtain ⟨hR, hC, _, h1, h2, _⟩ := operatorMulIn_returns h
    rw [h1, h2]; exact ⟨hR, hC⟩
  · intro h
    obtain ⟨hR, hC, _, h1, h2, _⟩ := transpose_returns h
    rw [h1, h2]; exact ⟨hC, hR⟩

/-- Witness of C18 (amended): the literal `{{1, 2}, {3, 4}}` and the product of
`{{1, 2}, {3, 4}}` and `{{5, 6}, {7, 8}}`. -/
theorem ThreadVersion.positive_dimensions_witness :
    (∃ r, ThreadVersion.ofLists ([[1, 2], [3, 4]] : List (List Int)) = .ok r ∧
      1 ≤ r.rows ∧ 1 ≤ r.cols) ∧
    (∃ r, ThreadVersion.operatorMulIn 64 maxSizeInt 3 (ThreadVersion.bands 64 2 3) testA testB = .ok r ∧
      1 ≤ r.rows ∧ 1 ≤ r.cols) :=
  ⟨⟨testA, rfl,
      (ThreadVersion.positive_dimensions 64 maxSizeInt 3 (ThreadVersion.bands 64 2 3) 2 2 (0 : Int) 2
        [[1, 2], [3, 4]] testA testB testA).2.1 (by decide) rfl⟩,
    ⟨⟨[19, 22, 43, 50], 2, 2⟩, rfl,
      (ThreadVersion.positive_dimensions 64 maxSizeInt 3 (ThreadVersion.bands 64 2 3) 2 2 (0 : Int) 2
        [[1, 2], [3, 4]] testA testB ⟨[19, 22, 43, 50], 2, 2⟩).2.2.2.2.2.1 rfl⟩⟩

/-- Counterexample to C18: the nested-literal constructor returns, for the empty
literal `{}`, a matrix with no row and no column. -/
theorem ThreadVersion.positive_dimensions_fails :
    ∃ m, ThreadVersion.ofLists ([] : List (List Int)) = .ok m ∧
      m.rows = 0 ∧ m.cols = 0 ∧ ¬ (1 ≤ m.rows ∧ 1 ≤ m.cols) :=
  ⟨emptyLiteral, rfl, rfl, rfl, by decide⟩

/-! ## The partition into bands -/

theorem spawnLoop_getElem (w R W q : Nat) (hq : W * q ≤ R) (hR : R ≤ SIZE_MAX w) :
    ∀ (count i start : Nat), i + count = W → (0 < count → start = i * q) →
      (ThreadVersion.spawnLoop w R W q count i start).length = count ∧
      ∀ j, j < count →
        (ThreadVersion.spawnLoop w R W q count i start)[j]? =
          some ((i + j) * q, if i + j = W - 1 then R else (i + j + 1) * q) := by
  intro count
  induction count with
  | zero =>
    intro i start _ _
    exact ⟨rfl, fun j hj => absurd hj (Nat.not_lt_zero _)⟩
  | succ c ih =>
    intro i start hi hstart
    have hs : start = i * q := hstart (Nat.succ_pos c)
    subst hs
    have hle : (i + 1) * q ≤ W * q := Nat.mul_le_mul_right q (by omega)
    have hnext : (i * q + q) % 2 ^ w = (i + 1) * q := by
      have : i * q + q = (i + 1) * q := by rw [Nat.add_mul]; omega
      rw [this]; exact wrap_eq (by omega)
    have hunf : ThreadVersion.spawnLoop w R W q (c + 1) i (i * q) =
        (i * q, if i = W - 1 then R else (i + 1) * q) ::
          ThreadVersion.spawnLoop w R W q c (i + 1)
            (if i = W - 1 then R else (i + 1) * q) := by
      simp only [ThreadVersion.spawnLoop, hnext]
    obtain ⟨ihlen, ihget⟩ := ih (i + 1) (if i = W - 1 then R else (i + 1) * q) (by omega)
      (by
        intro hc
        have : ¬ (i = W - 1) := by omega
        rw [if_neg this])
    rw [hunf]
    refine ⟨by simp [ihlen], ?_⟩
    intro j hj
    cases j with
    | zero => simp
    | succ j =>
      have e1 : i + (j + 1) = i + 1 + j := by omega
      simp only [List.getElem?_cons_succ]
      rw [ihget j (by omega), e1]

/-- The bands of `operator*` in closed form: band `j` starts at `j * (rows / W)` and
ends at `(j + 1) * (rows / W)`, except the last, which ends at `rows`. -/
theorem bands_getElem (w R W : Nat) (hR : R ≤ SIZE_MAX w) :
    (ThreadVersion.bands w R W).length = W ∧
    ∀ j, j < W →
      (ThreadVersion.bands w R W)[j]? =
        some (j * (R / W), if j = W - 1 then R else (j + 1) * (R / W)) := by
  obtain ⟨h1, h2⟩ := spawnLoop_getElem w R W (R / W) (Nat.mul_div_le R W) hR W 0 0
    (by omega) (fun _ => by simp)
  refine ⟨h1, fun j hj => ?_⟩
  have := h2 j hj
  simp only [Nat.zero_add] at this
  exact this

theorem bands_getElem_inv (w R W : Nat) (hR : R ≤ SIZE_MAX w)
    {i s e : Nat} (h : (ThreadVersion.bands w R W)[i]? = some (s, e)) :
    i < W ∧ s = i * (R / W) ∧ e = (if i = W - 1 then R else (i + 1) * (R / W)) := by
  obtain ⟨hlen, hget⟩ := bands_getElem w R W hR
  have hi : i < W := by
    by_contra hge
    rw [List.getElem?_eq_none (by omega)] at h
    cases h
  rw [hget i hi] at h
  injection h with h
  injection h with h1 h2
  exact ⟨hi, h1.symm, h2.symm⟩

/-- C19: for a representable row count and `W ≥ 1` workers the partition loop of
`operator*` makes `W` bands `[start_i, end_i)` with `start_0 = 0`,
`start_{i+1} = end_i`, `end_{W-1} = rows`, every band inside `[0, rows]`, every band
but the last of exactly `rows / W` rows, and every row index below `rows` in exactly one
band; when `rows < W` the first `W - 1` bands are the empty `[0, 0)` and the last is
`[0, rows)`. -/
theorem ThreadVersion.bands_partition (w rows W : Nat) (hW : 1 ≤ W)
    (hrows : rows ≤ SIZE_MAX w) :
    (ThreadVersion.bands w rows W).length = W ∧
    (∃ e, (ThreadVersion.bands w rows W)[0]? = some (0, e)) ∧
    (∀ i s e s' e' : Nat, (ThreadVersion.bands w rows W)[i]? = some (s, e) →
      (ThreadVersion.bands w rows W)[i + 1]? = some (s', e') → s' = e) ∧
    (∃ s, (ThreadVersion.bands w rows W)[W - 1]? = some (s, rows)) ∧
    (∀ i s e : Nat, (ThreadVersion.bands w rows W)[i]? = some (s, e) → s ≤ e ∧ e ≤ rows) ∧
    (∀ i s e : Nat, i + 1 < W → (ThreadVersion.bands w rows W)[i]? = some (s, e) →
      e = s + rows / W) ∧
    (∀ x, x < rows →
      ∃! i : Nat, ∃ s e, (ThreadVersion.bands w rows W)[i]? = some (s, e) ∧ s ≤ x ∧ x < e) ∧
    (rows < W →
      (∀ i, i + 1 < W → (ThreadVersion.bands w rows W)[i]? = some (0, 0)) ∧
      (ThreadVersion.bands w rows W)[W - 1]? = some (0, rows)) := by
  obtain ⟨hlen, hget⟩ := bands_getElem w rows W hrows
  have hq : W * (rows / W) ≤ rows := Nat.mul_div_le rows W
  refine ⟨hlen, ?_, ?_, ?_, ?_, ?_, ?_, ?_⟩
  · refine ⟨if 0 = W - 1 then rows else (0 + 1) * (rows / W), ?_⟩
    rw [hget 0 (by omega), Nat.zero_mul]
  · intro i s e s' e' h h'
    obtain ⟨hi, _, he⟩ := bands_getElem_inv w rows W hrows h
    obtain ⟨hi', hs', _⟩ := bands_getElem_inv w rows W hrows h'
    have : ¬ (i = W - 1) := by omega
    rw [if_neg this] at he
    rw [hs', he]
  · refine ⟨(W - 1) * (rows / W), ?_⟩
    rw [hget (W - 1) (by omega), if_pos rfl]
  · intro i s e h
    obtain ⟨hi, hs, he⟩ := bands_getElem_inv w rows W hrows h
    have h1 : i * (rows / W) ≤ W * (rows / W) := Nat.mul_le_mul_right _ (by omega)
    by_cases hl : i = W - 1
    · rw [if_pos hl] at he
      omega
    · rw [if_neg hl] at he
      have h2 : (i + 1) * (rows / W) ≤ W * (rows / W) := Nat.mul_le_mul_right _ (by omega)
      have h3 : (i + 1) * (rows / W) = i * (rows / W) + rows / W := by
        rw [Nat.add_mul, Nat.one_mul]
      generalize rows / W = q at *
      omega
  · intro i s e hi h
    obtain ⟨_, hs, he⟩ := bands_getElem_inv w rows W hrows h
    have : ¬ (i = W - 1) := by omega
    rw [if_neg this] at he
    rw [he, hs, Nat.add_mul]; omega
  · intro x hx
    obtain ⟨b, hb, hb1, hb2⟩ := (bands_cover w rows W hW hrows).2 x hx
    obtain ⟨i, hi⟩ := List.getElem?_of_mem hb
    refine ⟨i, ⟨b.1, b.2, hi, hb1, hb2⟩, ?_⟩
    rintro i' ⟨s', e', hi', hs'x, hxe'⟩
    obtain ⟨hiW, hs, he⟩ := bands_getElem_inv w rows W hrows (i := i) (s := b.1) (e := b.2) hi
    obtain ⟨hiW', hs', he'⟩ := bands_getElem_inv w rows W hrows hi'
    rcases Nat.lt_trichotomy i' i with hlt | heq | hgt
    · have hn : ¬ (i' = W - 1) := by omega
      rw [if_neg hn] at he'
      have : (i' + 1) * (rows / W) ≤ i * (rows / W) := Nat.mul_le_mul_right _ (by omega)
      omega
    · exact heq
    · have hn : ¬ (i = W - 1) := by omega
      rw [if_neg hn] at he
      have : (i + 1) * (rows / W) ≤ i' * (rows / W) := Nat.mul_le_mul_right _ (by omega)
      omega
  · intro hlt
    have hq0 : rows / W = 0 := Nat.div_eq_of_lt hlt
    constructor
    · intro i hi
      have hn : ¬ (i = W - 1) := by omega
      rw [hget i (by omega), if_neg hn, hq0, Nat.mul_zero, Nat.mul_zero]
    · rw [hget (W - 1) (by omega), if_pos rfl, hq0, Nat.mul_zero]

/-- Witness of C19: ten rows and four workers give the bands `[0, 2)`, `[2, 4)`,
`[4, 6)`, `[6, 10)`. -/
theorem ThreadVersion.bands_partition_witness :
    ThreadVersion.bands 64 10 4 = [(0, 2), (2, 4), (4, 6), (6, 10)] ∧
    (ThreadVersion.bands 64 10 4).length = 4 ∧
    (∀ x, x < 10 →
      ∃! i : Nat, ∃ s e, (ThreadVersion.bands 64 10 4)[i]? = some (s, e) ∧ s ≤ x ∧ x < e) :=
  have h := ThreadVersion.bands_partition 64 10 4 (by decide) (by decide)
  ⟨rfl, h.1, h.2.2.2.2.2.2.1⟩

/-! ## One worker and its band -/

/-- C20: for operands `A` (`R x K`) and `B` (`K x C`), a result matrix of the shape
`R x C` that `operator*` allocates, and band bounds `start_row ≤ end_row ≤ R`, one
worker (`multiply_rows`, and likewise the thread lambda) returns normally, keeps the
shape and the buffer length of the result, sets every cell `(i, j)` with
`start_row ≤ i < end_row` to the dot product of row `i` of `A` and column `j` of `B`,
and leaves every cell of the rows outside the band as it was; an empty band leaves the
whole result as it was. -/
theorem ThreadVersion.worker_frame [Zero T] [Add T] [Mul T] (w R K C : Nat)
    (A B res : Matrix T) (a b : Nat → Nat → T) (start_row end_row : Nat)
    (hA : A.Reads w R K a) (hB : B.Reads w K C b) (hres : res.Shaped w R C)
    (hle : start_row ≤ end_row) (hend : end_row ≤ R) :
    ∃ r, ThreadVersion.multiply_rows w A res B start_row end_row = .ok r ∧
      ThreadVersion.threadBody w A res B start_row end_row = .ok r ∧
      r.rows = res.rows ∧ r.cols = res.cols ∧ r.data.length = res.data.length ∧
      (∀ i j, start_row ≤ i → i < end_row → j < C →
        r.elem w i j = .ok (dotSum a b K i j)) ∧
      (∀ i j, i < R → j < C → ¬ (start_row ≤ i ∧ i < end_row) →
        r.elem w i j = res.elem w i j) ∧
      (start_row = end_row → r = res) := by
  obtain ⟨r, hr, hS, hin, hout⟩ :=
    multiply_rows_band w A B res R K C a b hA hB hres start_row end_row hle hend
  refine ⟨r, hr, (threadBody_eq w A res B start_row end_row).trans hr,
    hS.1.trans hres.1.symm, hS.2.1.trans hres.2.1.symm,
    hS.2.2.1.trans hres.2.2.1.symm, hin, hout, ?_⟩
  intro heq
  have hempty : ThreadVersion.multiply_rows w A res B start_row end_row = .ok res := by
    unfold ThreadVersion.multiply_rows
    exact forRange_empty _ _ _ _ (by omega)
  rw [hempty] at hr
  injection hr with hr
  exact hr.symm

/-- Witness of C20: the worker of band `[1, 2)` on the zero-filled 2 x 2 result of
`{{1, 2}, {3, 4}} * {{5, 6}, {7, 8}}` writes the second row only. -/
theorem ThreadVersion.worker_frame_witness :
    ThreadVersion.multiply_rows 64 testA zeroSquare testB 1 2 =
        .ok ⟨[0, 0, 43, 50], 2, 2⟩ ∧
    ∃ r, ThreadVersion.multiply_rows 64 testA zeroSquare testB 1 2 = .ok r ∧
      ThreadVersion.threadBody 64 testA zeroSquare testB 1 2 = .ok r ∧
      r.rows = zeroSquare.rows ∧ r.cols = zeroSquare.cols ∧
      r.data.length = zeroSquare.data.length ∧
      (∀ i j, 1 ≤ i → i < 2 → j < 2 →
        r.elem 64 i j = .ok (dotSum cellsA cellsB 2 i j)) ∧
      (∀ i j, i < 2 → j < 2 → ¬ (1 ≤ i ∧ i < 2) →
        r.elem 64 i j = zeroSquare.elem 64 i j) ∧
      (1 = 2 → r = zeroSquare) :=
  ⟨rfl, ThreadVersion.worker_frame 64 2 2 2 testA testB zeroSquare cellsA cellsB 1 2
    testA_Reads testB_Reads ⟨rfl, rfl, rfl, by decide⟩ (by decide) (by decide)⟩

/-! ## The row-major index map -/

/-- C21: for a matrix whose buffer has exactly `rows * cols` elements (a number that
fits the size type, as the size of every buffer does), the index `row * cols + col`
that `operator()` computes is not wrapped and lies strictly below `rows * cols` for
every in-bounds pair, distinct in-bounds pairs get distinct indices, `operator()` reads
the buffer at that index, and writing cell `(i, j)` then reading cell `(i', j')` gives
the written value when `(i', j') = (i, j)` and the value read before the write
otherwise. -/
theorem Matrix.index_map_spec (w R C : Nat) (m : Matrix T) (hm : m.Shaped w R C) :
    (∀ i j, i < R → j < C →
      (i * m.cols + j) % 2 ^ w = i * C + j ∧ (i * m.cols + j) % 2 ^ w < R * C ∧
      (i * m.cols + j) % 2 ^ w < m.data.length ∧
      m.elem w i j = vecGet m.data (i * C + j)) ∧
    (∀ i j i' j', i < R → j < C → i' < R → j' < C →
      (i * m.cols + j) % 2 ^ w = (i' * m.cols + j') % 2 ^ w → i = i' ∧ j = j') ∧
    (∀ i j x, i < R → j < C →
      ∃ m', m.assign w i j x = .ok m' ∧ m'.rows = R ∧ m'.cols = C ∧
        m'.data.length = R * C ∧ m'.elem w i j = .ok x ∧
        ∀ i' j', i' < R → j' < C → ¬ (i' = i ∧ j' = j) →
          ∃ v, m.elem w i' j' = .ok v ∧ m'.elem w i' j' = .ok v) := by
  have hwrap : ∀ i j, i < R → j < C → (i * m.cols + j) % 2 ^ w = i * C + j := by
    intro i j hi hj
    have hlt := index_lt hi hj
    have hcap := hm.2.2.2
    rw [hm.2.1]
    exact wrap_eq (by omega)
  refine ⟨?_, ?_, ?_⟩
  · intro i j hi hj
    have hlt := index_lt hi hj
    refine ⟨hwrap i j hi hj, ?_, ?_, hm.elem_eq hi hj⟩
    · rw [hwrap i j hi hj]; exact hlt
    · rw [hwrap i j hi hj, hm.2.2.1]; exact hlt
  · intro i j i' j' hi hj hi' hj' h
    rw [hwrap i j hi hj, hwrap i' j' hi' hj'] at h
    exact index_inj hj hj' h
  · intro i j x hi hj
    obtain ⟨m', hm', hS', hcell⟩ := hm.assign_spec x hi hj
    refine ⟨m', hm', hS'.1, hS'.2.1, hS'.2.2.1, ?_, ?_⟩
    · rw [hcell i j hi hj, if_pos ⟨rfl, rfl⟩]
    · intro i' j' hi' hj' hne
      obtain ⟨v, hv⟩ : ∃ v, m.elem w i' j' = .ok v := by
        rw [hm.elem_eq hi' hj']
        have hlen : i' * C + j' < m.data.length := by
          rw [hm.2.2.1]; exact index_lt hi' hj'
        exact ⟨m.data[i' * C + j'], by simp [vecGet, hlen]⟩
      refine ⟨v, hv, ?_⟩
      rw [hcell i' j' hi' hj', if_neg hne, hv]

/-- Witness of C21: writing 9 to cell `(0, 1)` of `{{1, 2}, {3, 4}}`. -/
theorem Matrix.index_map_spec_witness :
    testA.assign 64 0 1 9 = .ok ⟨[1, 9, 3, 4], 2, 2⟩ ∧
    ∃ m', testA.assign 64 0 1 9 = .ok m' ∧ m'.rows = 2 ∧ m'.cols = 2 ∧
      m'.data.length = 2 * 2 ∧ m'.elem 64 0 1 = .ok 9 ∧
      ∀ i' j', i' < 2 → j' < 2 → ¬ (i' = 0 ∧ j' = 1) →
        ∃ v, testA.elem 64 i' j' = .ok v ∧ m'.elem 64 i' j' = .ok v :=
  ⟨rfl, (Matrix.index_map_spec 64 2 2 testA ⟨rfl, rfl, rfl, by decide⟩).2.2 0 1 9
    (by decide) (by decide)⟩

end MatrixCalculation
